import Mathlib

/-!
# Verification of the dairycart variant-expansion and catalog-commit engine

A shallow embedding of the core of the `dairycart` repository:

* the Combination Enumerator (`generateCartesianProductForOptions`,
  `api/product_options.go`), including the odometer-style `next` index
  stepper borrowed by the source from a Stack Overflow answer;
* the Catalog Commit Orchestrator (`buildProductCreationHandler` together
  with `createProductsInDBFromOptionRows` and
  `createProductOptionAndValuesInDBFromInput`);
* the Archive Orchestrator for a single variant
  (`buildProductDeletionHandler`);
* the soft-delete SQL of `storage/postgres/product_variant_bridge.go`
  and the option deletion queries of `api/product_options.go`.

Machine integers are modelled as `Nat` (ids never overflow in any scenario
considered), the relational store as explicit lists of rows, the
transaction as a buffered copy of the database that becomes visible only
at commit, and store failures as a per-call failure schedule
`fail : Nat → Bool` consulted at each store round trip.  A Go runtime
panic (out-of-range slice indexing) is modelled as `none` / a `panicked`
error value.
-/

set_option autoImplicit false

namespace Dairycart

/-! ## Data model (dairymodels / storage models) -/

/-- Model of `models.ProductOptionValue`: one concrete value of an option. -/
structure ProductOptionValue where
  id : Nat
  productOptionID : Nat
  value : String
  deriving Repr, DecidableEq

/-- Model of `models.ProductOption`: a named axis of variation, carrying its values. -/
structure ProductOption where
  id : Nat
  productRootID : Nat
  name : String
  values : List ProductOptionValue
  deriving Repr, DecidableEq

/-- Model of `optionPlaceholder` (product_options.go): per-value scratch data for the
cartesian product. -/
structure OptionPlaceholder where
  id : Nat
  summary : String
  value : String
  originalValue : ProductOptionValue
  deriving Repr, DecidableEq

/-- Model of `simpleProductOption` (product_options.go): one enumerated combination,
with the ids of the selected values, the display summary and the SKU
postfix. -/
structure SimpleProductOption where
  ids : List Nat
  optionSummary : String
  skuPostfix : String
  originalValues : List ProductOptionValue
  deriving Repr, DecidableEq

/-- Go `strings.ToLower`, character by character (the inputs of interest are
ASCII, where the two agree). -/
def goToLower (s : String) : String :=
  String.mk (s.data.map Char.toLower)

/-! ## Combination Enumerator (`generateCartesianProductForOptions`) -/

/-- One placeholder per value, with
`Summary = fmt.Sprintf("%s: %s", o.Name, v.Value)`. -/
def mkPlaceholder (o : ProductOption) (v : ProductOptionValue) : OptionPlaceholder :=
  { id := v.id
    summary := o.name ++ ": " ++ v.value
    value := v.value
    originalValue := v }

/-- The construction of `optionData` at the top of
`generateCartesianProductForOptions`. -/
def buildOptionData (inputOptions : List ProductOption) : List (List OptionPlaceholder) :=
  inputOptions.map fun o => o.values.map (mkPlaceholder o)

/-- The `next` closure of `generateCartesianProductForOptions`, which walks
`j` from `len(ix)-1` down to `0`, incrementing and wrapping.  Walking a Go
slice from the right is walking its reversal from the left, so this helper
takes the reversed index vector and the reversed list of lengths; position
`j = 0` of the source (the last element here) increments without a bound
check, exactly as the `j == 0 ||` short-circuit does. -/
def nextAux : List Nat → List Nat → List Nat
  | [], _ => []
  | [i], _ => [i + 1]
  | i :: is, ls =>
      if i + 1 < ls.headD 0 then (i + 1) :: is
      else 0 :: nextAux is ls.tail

/-- Function `next(ix, sl)` on index vectors in source order, `lens` being the list
of `len(sl[j])`. -/
def next (ix lens : List Nat) : List Nat :=
  (nextAux ix.reverse lens.reverse).reverse

/-- The inner `for j, k := range ix` body: read `optionData[j][k]` for each
position.  `none` models the Go runtime panic when an index is out of
range.  (Generic in the element type; the source instantiates it at
`optionPlaceholder`.) -/
def buildRowAux {α : Type} : List (List α) → List Nat → Option (List α)
  | _, [] => some []
  | [], _ :: _ => none
  | d :: ds, k :: ks =>
      match d[k]? with
      | none => none
      | some ph => (buildRowAux ds ks).map (ph :: ·)

/-- Packaging of one row into a `simpleProductOption`: ids in option order,
summaries joined with `", "`, lowercased values joined with `"_"`. -/
def rowToSimpleOption (row : List OptionPlaceholder) : SimpleProductOption :=
  { ids := row.map (·.id)
    optionSummary := String.intercalate ", " (row.map (·.summary))
    skuPostfix := String.intercalate "_" (row.map fun ph => goToLower ph.value)
    originalValues := row.map (·.originalValue) }

/-- The enumeration loop
`for ix := make([]int, len(optionData)); ix[0] < len(optionData[0]); next(ix, optionData)`.
`none` models either the out-of-range read `ix[0]` / `optionData[0]` (the
Go panic on an empty `optionData`), an out-of-range inner read, or fuel
exhaustion; the wrapper below supplies enough fuel for every terminating
run of the source loop. -/
def cartLoop (optionData : List (List OptionPlaceholder)) :
    Nat → List Nat → Option (List SimpleProductOption)
  | 0, _ => none
  | fuel + 1, ix =>
      match ix, optionData with
      | [], _ => none
      | _ :: _, [] => none
      | i0 :: irest, d0 :: _ =>
          if i0 < d0.length then
            match buildRowAux optionData (i0 :: irest) with
            | none => none
            | some row =>
                (cartLoop optionData fuel
                    (next (i0 :: irest) (optionData.map List.length))).map
                  (rowToSimpleOption row :: ·)
          else some []

/-- Model of `generateCartesianProductForOptions` (product_options.go). -/
def generateCartesianProductForOptions (inputOptions : List ProductOption) :
    Option (List SimpleProductOption) :=
  let optionData := buildOptionData inputOptions
  cartLoop optionData ((optionData.map List.length).prod + 1)
    (List.replicate optionData.length 0)

/-! ## Specification-side combinatorics

`allCombos` is the textbook cartesian product in odometer order (first
dimension outermost, i.e. slowest; last dimension innermost, i.e.
fastest), against which the loop above is verified. -/

/-- All selections of one element per dimension, in odometer order. -/
def allCombos {α : Type} : List (List α) → List (List α)
  | [] => [[]]
  | d :: ds => d.flatMap fun x => (allCombos ds).map (x :: ·)

/-- An all-zero index vector of the same shape. -/
def zerosLike (ks : List Nat) : List Nat :=
  ks.map fun _ => 0

/-- The (partial) odometer successor of an index vector: rightmost digit
first, wrapping digits reset to `0`, `none` when the vector is exhausted. -/
def succIdx : List Nat → List Nat → Option (List Nat)
  | [], [] => none
  | k :: ks, l :: ls =>
      (match succIdx ks ls with
       | some ks' => some (k :: ks')
       | none => if k + 1 < l then some ((k + 1) :: zerosLike ks) else none)
  | _ :: _, [] => none
  | [], _ :: _ => none

/-- The suffix of `allCombos ds` that starts at index vector `ks`. -/
def combosFrom {α : Type} : List (List α) → List Nat → List (List α)
  | [], [] => [[]]
  | [], _ :: _ => []
  | _ :: _, [] => []
  | d :: ds, k :: ks =>
      match d.drop k with
      | [] => []
      | x :: rest =>
          ((combosFrom ds ks).map (x :: ·)) ++
            (rest.flatMap fun y => (allCombos ds).map (y :: ·))

/-- Index vector validity: strictly in range in every dimension. -/
def ValidIdx {α : Type} (ds : List (List α)) (ks : List Nat) : Prop :=
  List.Forall₂ (fun (d : List α) (k : Nat) => k < d.length) ds ks

/-! ## Relational store model

One list of rows per table of the §3 schema.  Generated ids come from a
single sequence counter; timestamps irrelevant to the claims are omitted,
the nullable `archived_on` column is an `Option Nat`. -/

/-- A row of `product_roots`. -/
structure ProductRootRow where
  id : Nat
  name : String
  skuPrefix : String
  deriving Repr, DecidableEq

/-- A row of `product_options`. -/
structure ProductOptionRow where
  id : Nat
  productRootID : Nat
  name : String
  archivedOn : Option Nat
  deriving Repr, DecidableEq

/-- A row of `products` (one variant). -/
structure ProductRow where
  id : Nat
  productRootID : Nat
  name : String
  sku : String
  optionSummary : String
  quantityPerPackage : Nat
  archivedOn : Option Nat
  deriving Repr, DecidableEq

/-- A row of `product_variant_bridge`. -/
structure ProductVariantBridgeRow where
  id : Nat
  productID : Nat
  productOptionValueID : Nat
  archivedOn : Option Nat
  deriving Repr, DecidableEq

/-- The visible relational state (rows of `product_option_values` are the
`ProductOptionValue` model itself). -/
structure DB where
  roots : List ProductRootRow
  options : List ProductOptionRow
  optionValues : List ProductOptionValue
  products : List ProductRow
  bridges : List ProductVariantBridgeRow
  deriving Repr, DecidableEq

/-- State carried through an open transaction: the buffered view `tx`, the
id sequence and the count of store round trips so far. -/
structure TxState where
  tx : DB
  nextID : Nat
  calls : Nat
  deriving Repr, DecidableEq

/-- State between requests: committed database, id sequence, call count. -/
structure CatalogState where
  db : DB
  nextID : Nat
  calls : Nat
  deriving Repr, DecidableEq

/-- A store error: a failed round trip (per the failure schedule), or a Go
runtime panic surfacing through the call. -/
inductive StoreErr
  | failed
  | panicked
  deriving Repr, DecidableEq

/-- Failure schedule: call index `n` fails iff `fail n`. -/
abbrev FailSchedule := Nat → Bool

/-- One store round trip, consulting the failure schedule. -/
def stCall (fail : FailSchedule) (ts : TxState) : Except StoreErr TxState :=
  if fail ts.calls then Except.error StoreErr.failed
  else Except.ok { ts with calls := ts.calls + 1 }

/-- Store call `client.CreateProductRoot(tx, ...)`: insert the root row, return its id. -/
def clientCreateProductRoot (fail : FailSchedule) (name skuPrefix : String)
    (ts : TxState) : Except StoreErr (Nat × TxState) :=
  match stCall fail ts with
  | .error e => .error e
  | .ok ts1 =>
      .ok (ts1.nextID,
        { ts1 with
          nextID := ts1.nextID + 1
          tx := { ts1.tx with
            roots := ts1.tx.roots ++ [{ id := ts1.nextID, name := name, skuPrefix := skuPrefix }] } })

/-- Store call `client.CreateProductOption(tx, ...)`: insert the option row. -/
def clientCreateProductOption (fail : FailSchedule) (productRootID : Nat) (name : String)
    (ts : TxState) : Except StoreErr (Nat × TxState) :=
  match stCall fail ts with
  | .error e => .error e
  | .ok ts1 =>
      .ok (ts1.nextID,
        { ts1 with
          nextID := ts1.nextID + 1
          tx := { ts1.tx with
            options := ts1.tx.options ++
              [{ id := ts1.nextID, productRootID := productRootID, name := name,
                 archivedOn := none }] } })

/-- Store call `client.CreateProductOptionValue(tx, ...)`: insert the value row. -/
def clientCreateProductOptionValue (fail : FailSchedule) (optionID : Nat) (v : String)
    (ts : TxState) : Except StoreErr (Nat × TxState) :=
  match stCall fail ts with
  | .error e => .error e
  | .ok ts1 =>
      .ok (ts1.nextID,
        { ts1 with
          nextID := ts1.nextID + 1
          tx := { ts1.tx with
            optionValues := ts1.tx.optionValues ++
              [{ id := ts1.nextID, productOptionID := optionID, value := v }] } })

/-- Store call `client.CreateProduct(tx, p)`: insert the variant row, return its id. -/
def clientCreateProduct (fail : FailSchedule) (p : ProductRow) (ts : TxState) :
    Except StoreErr (Nat × TxState) :=
  match stCall fail ts with
  | .error e => .error e
  | .ok ts1 =>
      .ok (ts1.nextID,
        { ts1 with
          nextID := ts1.nextID + 1
          tx := { ts1.tx with products := ts1.tx.products ++ [{ p with id := ts1.nextID }] } })

/-- Bridge rows of the multi-row `INSERT` of
`CreateMultipleProductVariantBridgesForProductID`, with serial ids. -/
def mkBridgeRows (productID : Nat) : Nat → List Nat → List ProductVariantBridgeRow
  | _, [] => []
  | base, vid :: rest =>
      { id := base, productID := productID, productOptionValueID := vid,
        archivedOn := none } :: mkBridgeRows productID (base + 1) rest

/-- Store call `client.CreateMultipleProductVariantBridgesForProductID(tx, pid, ids)`. -/
def clientCreateMultipleProductVariantBridges (fail : FailSchedule) (productID : Nat)
    (optionValueIDs : List Nat) (ts : TxState) : Except StoreErr TxState :=
  match stCall fail ts with
  | .error e => .error e
  | .ok ts1 =>
      .ok { ts1 with
        nextID := ts1.nextID + optionValueIDs.length
        tx := { ts1.tx with
          bridges := ts1.tx.bridges ++ mkBridgeRows productID ts1.nextID optionValueIDs } }

/-! ## Creation payloads and the in-memory root graph -/

/-- Model of `ProductOptionCreationInput` (product_options.go). -/
structure ProductOptionCreationInput where
  name : String
  values : List String
  deriving Repr, DecidableEq

/-- Model of `models.ProductCreationInput`, restricted to the fields the core reads. -/
structure ProductCreationInput where
  name : String
  sku : String
  quantityPerPackage : Nat
  options : List ProductOptionCreationInput
  deriving Repr, DecidableEq

/-- Model of `models.ProductRoot` as the handler assembles it in memory. -/
structure ProductRoot where
  id : Nat
  name : String
  skuPrefix : String
  options : List ProductOption
  products : List ProductRow
  deriving Repr, DecidableEq

/-- Model of `newProductFromCreationInput` (part_000): copy the payload fields into a
fresh `models.Product`. -/
def newProductFromCreationInput (input : ProductCreationInput) : ProductRow :=
  { id := 0, productRootID := 0, name := input.name, sku := input.sku,
    optionSummary := "", quantityPerPackage := input.quantityPerPackage,
    archivedOn := none }

/-- Modelled from the spec: `createProductRootFromProduct` is called by the
handler but its body is not in the source slice; per §3 and the §8
examples the root's `sku_prefix` is the new product's SKU and the root
carries the product's name. -/
def createProductRootFromProduct (p : ProductRow) : ProductRoot :=
  { id := 0, name := p.name, skuPrefix := p.sku, options := [], products := [] }

/-- Modelled from the spec: `restrictedStringIsValid` is called by the
handler but its body is not in the source slice; routes.go documents the
valid SKU character set as `[a-zA-Z\-_]+` and §4.4/§7 require rejecting a
SKU outside a restricted character set. -/
def restrictedStringIsValid (s : String) : Bool :=
  !s.isEmpty && s.data.all fun c => c.isAlpha || c == '-' || c == '_'

/-! ## Catalog Commit Orchestrator -/

/-- The loop of `createProductOptionAndValuesInDBFromInput` over
`in.Values`, accumulating the populated value objects. -/
def createOptionValuesLoop (fail : FailSchedule) (optionID : Nat) (vals : List String)
    (acc : List ProductOptionValue) (ts : TxState) :
    Except StoreErr (List ProductOptionValue × TxState) :=
  match vals with
  | [] => .ok (acc, ts)
  | v :: rest =>
      match clientCreateProductOptionValue fail optionID v ts with
      | .error e => .error e
      | .ok (vid, ts1) =>
          createOptionValuesLoop fail optionID rest
            (acc ++ [{ id := vid, productOptionID := optionID, value := v }]) ts1

/-- Model of `createProductOptionAndValuesInDBFromInput` (product_options.go). -/
def createProductOptionAndValuesInDBFromInput (fail : FailSchedule)
    (input : ProductOptionCreationInput) (productRootID : Nat) (ts : TxState) :
    Except StoreErr (ProductOption × TxState) :=
  match clientCreateProductOption fail productRootID input.name ts with
  | .error e => .error e
  | .ok (oid, ts1) =>
      match createOptionValuesLoop fail oid input.values [] ts1 with
      | .error e => .error e
      | .ok (vals, ts2) =>
          .ok ({ id := oid, productRootID := productRootID, name := input.name,
                 values := vals }, ts2)

/-- The handler's `for _, optionAndValues := range productInput.Options`
loop, accumulating `productRoot.Options`. -/
def createOptionsLoop (fail : FailSchedule) (inputs : List ProductOptionCreationInput)
    (rootID : Nat) (acc : List ProductOption) (ts : TxState) :
    Except StoreErr (List ProductOption × TxState) :=
  match inputs with
  | [] => .ok (acc, ts)
  | i :: rest =>
      match createProductOptionAndValuesInDBFromInput fail i rootID ts with
      | .error e => .error e
      | .ok (o, ts1) => createOptionsLoop fail rest rootID (acc ++ [o]) ts1

/-- The loop of `createProductsInDBFromOptionRows` over the enumerated
combinations: clone the base product, overwrite root id / summary / SKU,
insert it, then insert its bridge rows. -/
def createVariantsLoop (fail : FailSchedule) (rootID : Nat) (skuPrefix : String)
    (np : ProductRow) (combos : List SimpleProductOption) (acc : List ProductRow)
    (ts : TxState) : Except StoreErr (List ProductRow × TxState) :=
  match combos with
  | [] => .ok (acc, ts)
  | s :: rest =>
      let p : ProductRow :=
        { np with
          productRootID := rootID
          optionSummary := s.optionSummary
          sku := skuPrefix ++ "_" ++ s.skuPostfix }
      match clientCreateProduct fail p ts with
      | .error e => .error e
      | .ok (pid, ts1) =>
          match clientCreateMultipleProductVariantBridges fail pid s.ids ts1 with
          | .error e => .error e
          | .ok ts2 =>
              createVariantsLoop fail rootID skuPrefix np rest
                (acc ++ [{ p with id := pid }]) ts2

/-- Model of `createProductsInDBFromOptionRows` (part_000).  A `panicked` error is
the enumerator's out-of-range indexing propagating out of the handler. -/
def createProductsInDBFromOptionRows (fail : FailSchedule) (r : ProductRoot)
    (np : ProductRow) (ts : TxState) : Except StoreErr (List ProductRow × TxState) :=
  match generateCartesianProductForOptions r.options with
  | none => .error StoreErr.panicked
  | some combos => createVariantsLoop fail r.id r.skuPrefix np combos [] ts

/-- The possible outcomes of the creation handler. -/
inductive CreationResponse
  | invalidInput
  | internalError
  | panicked
  | created (root : ProductRoot)
  deriving Repr, DecidableEq

/-- Whether a response is the 201/created outcome. -/
def CreationResponse.isCreated : CreationResponse → Bool
  | .created _ => true
  | _ => false

/-- The core of `buildProductCreationHandler` (part_000), the
`CommitCatalog` operation of the spec: validate the SKU, pre-check prefix
uniqueness, begin, create root, floor the quantity-per-package, create
options and values, create the base variant or the expanded variants with
their bridges, commit.  Every error path after `Begin` returns with the
committed database untouched (`tx.Rollback`); only a successful `Commit`
publishes the buffered view. -/
def commitCatalog (fail : FailSchedule) (input : ProductCreationInput)
    (st : CatalogState) : CreationResponse × CatalogState :=
  if restrictedStringIsValid input.sku = false then (.invalidInput, st)
  else if fail st.calls then (.invalidInput, { st with calls := st.calls + 1 })
  else
    let st1 : CatalogState := { st with calls := st.calls + 1 }
    if st1.db.roots.any (fun r => r.skuPrefix == input.sku) then (.invalidInput, st1)
    else if fail st1.calls then (.internalError, { st1 with calls := st1.calls + 1 })
    else
      let ts0 : TxState := { tx := st1.db, nextID := st1.nextID, calls := st1.calls + 1 }
      let newProduct := newProductFromCreationInput input
      let productRoot := createProductRootFromProduct newProduct
      match clientCreateProductRoot fail productRoot.name productRoot.skuPrefix ts0 with
      | .error _ => (.internalError, { db := st1.db, nextID := ts0.nextID, calls := ts0.calls })
      | .ok (rootID, ts1) =>
          let newProduct1 :=
            { newProduct with quantityPerPackage := max newProduct.quantityPerPackage 1 }
          match createOptionsLoop fail input.options rootID [] ts1 with
          | .error _ => (.internalError, { db := st1.db, nextID := ts1.nextID, calls := ts1.calls })
          | .ok (os, ts2) =>
              if input.options.length == 0 then
                let np2 := { newProduct1 with productRootID := rootID }
                match clientCreateProduct fail np2 ts2 with
                | .error _ =>
                    (.internalError, { db := st1.db, nextID := ts2.nextID, calls := ts2.calls })
                | .ok (pid, ts3) =>
                    if fail ts3.calls then
                      (.internalError,
                        { db := st1.db, nextID := ts3.nextID, calls := ts3.calls + 1 })
                    else
                      (.created
                        { id := rootID, name := productRoot.name,
                          skuPrefix := productRoot.skuPrefix, options := [],
                          products := [{ np2 with id := pid }] },
                        { db := ts3.tx, nextID := ts3.nextID, calls := ts3.calls + 1 })
              else
                let productRoot2 : ProductRoot :=
                  { id := rootID, name := productRoot.name,
                    skuPrefix := productRoot.skuPrefix, options := os, products := [] }
                match createProductsInDBFromOptionRows fail productRoot2 newProduct1 ts2 with
                | .error StoreErr.panicked =>
                    (.panicked, { db := st1.db, nextID := ts2.nextID, calls := ts2.calls })
                | .error StoreErr.failed =>
                    (.internalError, { db := st1.db, nextID := ts2.nextID, calls := ts2.calls })
                | .ok (ps, ts3) =>
                    if fail ts3.calls then
                      (.internalError,
                        { db := st1.db, nextID := ts3.nextID, calls := ts3.calls + 1 })
                    else
                      (.created { productRoot2 with products := ps },
                        { db := ts3.tx, nextID := ts3.nextID, calls := ts3.calls + 1 })

/-! ## Soft-delete SQL (storage/postgres and product_options.go) -/

/-- Query `productVariantBridgeDeletionQuery`:
`UPDATE product_variant_bridge SET archived_on = NOW() WHERE id = $1` —
note the absence of an `archived_on IS NULL` guard. -/
def runProductVariantBridgeDeletion (now id : Nat)
    (t : List ProductVariantBridgeRow) : List ProductVariantBridgeRow :=
  t.map fun r => if r.id == id then { r with archivedOn := some now } else r

/-- Query `productVariantBridgeDeletionQueryByProductID`, which does carry the
`archived_on IS NULL` guard. -/
def runProductVariantBridgeDeletionByProductID (now productID : Nat)
    (t : List ProductVariantBridgeRow) : List ProductVariantBridgeRow :=
  t.map fun r =>
    if r.productID == productID && r.archivedOn == none then
      { r with archivedOn := some now }
    else r

/-- Query `productOptionDeletionQuery` (product_options.go), guarded by
`archived_on IS NULL`. -/
def runProductOptionDeletion (now id : Nat) (t : List ProductOptionRow) :
    List ProductOptionRow :=
  t.map fun r =>
    if r.id == id && r.archivedOn == none then { r with archivedOn := some now } else r

/-- Modelled from the spec: the postgres `DeleteProduct` implementation is
not in the source slice; per §3/§4.5 archiving stamps the archive
timestamp on the live product row. -/
def runProductDeletion (now id : Nat) (t : List ProductRow) : List ProductRow :=
  t.map fun r =>
    if r.id == id && r.archivedOn == none then { r with archivedOn := some now } else r

/-! ## Archive Orchestrator (single variant) -/

/-- Observable events of the deletion handler, in execution order. -/
inductive ArchiveEv
  | evGet
  | evBegin
  | evBridges
  | evProduct
  | evCommit
  | evRollback
  deriving Repr, DecidableEq

/-- State threaded through the deletion handler. -/
structure DeletionState where
  db : DB
  calls : Nat
  trace : List ArchiveEv
  deriving Repr, DecidableEq

/-- The possible outcomes of the deletion handler. -/
inductive DeletionResponse
  | notFound
  | internalError
  | deleted (archivedOn : Nat)
  deriving Repr, DecidableEq

/-- The core of `buildProductDeletionHandler` (part_000): look the product
up by SKU, begin, archive its bridge rows
(`DeleteProductVariantBridgeByProductID`, `sql.ErrNoRows` tolerated),
archive the product, commit.  Archive events are recorded when the
corresponding statement succeeds; a failing statement rolls back. -/
def productDeletionHandler (fail : FailSchedule) (now : Nat) (sku : String)
    (st : DeletionState) : DeletionResponse × DeletionState :=
  if fail st.calls then
    (.internalError, { st with calls := st.calls + 1, trace := st.trace ++ [ArchiveEv.evGet] })
  else
    let st1 : DeletionState :=
      { st with calls := st.calls + 1, trace := st.trace ++ [ArchiveEv.evGet] }
    match st1.db.products.find? (fun p => p.sku == sku) with
    | none => (.notFound, st1)
    | some product =>
        if fail st1.calls then (.internalError, { st1 with calls := st1.calls + 1 })
        else
          let st2 : DeletionState :=
            { st1 with calls := st1.calls + 1, trace := st1.trace ++ [ArchiveEv.evBegin] }
          if fail st2.calls then
            (.internalError,
              { st2 with calls := st2.calls + 1, trace := st2.trace ++ [ArchiveEv.evRollback] })
          else
            let buf1 : DB :=
              { st2.db with
                bridges := runProductVariantBridgeDeletionByProductID now product.id
                  st2.db.bridges }
            let st3 : DeletionState :=
              { st2 with calls := st2.calls + 1, trace := st2.trace ++ [ArchiveEv.evBridges] }
            if fail st3.calls then
              (.internalError,
                { st3 with calls := st3.calls + 1, trace := st3.trace ++ [ArchiveEv.evRollback] })
            else
              let buf2 : DB :=
                { buf1 with products := runProductDeletion now product.id buf1.products }
              let st4 : DeletionState :=
                { st3 with calls := st3.calls + 1, trace := st3.trace ++ [ArchiveEv.evProduct] }
              if fail st4.calls then
                (.internalError, { st4 with calls := st4.calls + 1 })
              else
                (.deleted now,
                  { db := buf2, calls := st4.calls + 1,
                    trace := st4.trace ++ [ArchiveEv.evCommit] })

/-- The ordering contract of §4.5 step 4 on a trace: whenever the variant
is archived, its bridge rows were archived strictly earlier, the
transaction had been opened before that, and no commit had intervened. -/
def BridgesBeforeProduct (tr : List ArchiveEv) : Prop :=
  ArchiveEv.evProduct ∈ tr →
    (ArchiveEv.evBridges ∈ tr.takeWhile (fun e => decide (e ≠ ArchiveEv.evProduct)) ∧
     ArchiveEv.evBegin ∈ tr.takeWhile (fun e => decide (e ≠ ArchiveEv.evBridges)) ∧
     ArchiveEv.evCommit ∉ tr.takeWhile (fun e => decide (e ≠ ArchiveEv.evProduct)))

/-! ## Specification helpers shared by the counting and naming claims -/

/-- The value rows created for one option, with serial ids. -/
def mkValues (optionID : Nat) : Nat → List String → List ProductOptionValue
  | _, [] => []
  | base, v :: rest =>
      { id := base, productOptionID := optionID, value := v } ::
        mkValues optionID (base + 1) rest

/-- The populated option object created for one option input. -/
def mkOption (rootID base : Nat) (i : ProductOptionCreationInput) : ProductOption :=
  { id := base, productRootID := rootID, name := i.name,
    values := mkValues base (base + 1) i.values }

/-- The populated option objects accumulated by the options loop. -/
def mkOptions (rootID : Nat) : Nat → List ProductOptionCreationInput → List ProductOption
  | _, [] => []
  | base, i :: rest =>
      mkOption rootID base i :: mkOptions rootID (base + 1 + i.values.length) rest

/-- The all-success failure schedule. -/
def noFail : FailSchedule := fun _ => false

/-- No call with index in `[a, b)` fails under the schedule. -/
def CleanRange (fail : FailSchedule) (a b : Nat) : Prop :=
  ∀ k, a ≤ k → k < b → fail k = false

/-! ## Concrete fixtures used by witnesses and counterexamples -/

/-- An empty database. -/
def emptyDB : DB :=
  { roots := [], options := [], optionValues := [], products := [], bridges := [] }

/-- A fresh catalog state. -/
def freshState : CatalogState := { db := emptyDB, nextID := 1, calls := 0 }

/-- The §8 example payload: a shirt with sizes and colors. -/
def demoInput : ProductCreationInput :=
  { name := "shirt", sku := "shirt", quantityPerPackage := 0,
    options :=
      [{ name := "Size", values := ["Small", "Medium", "Large"] },
       { name := "Color", values := ["Red", "Blue"] }] }

/-- A payload with no options (the `mug` example of §8). -/
def demoNoOptions : ProductCreationInput :=
  { name := "mug", sku := "mug", quantityPerPackage := 2, options := [] }

/-- A payload containing an option with zero values. -/
def demoZeroValues : ProductCreationInput :=
  { name := "shirt", sku := "shirt", quantityPerPackage := 1,
    options := [{ name := "Size", values := [] }] }

/-- A payload whose second option has zero values. -/
def demoZeroValuesSecond : ProductCreationInput :=
  { name := "shirt", sku := "shirtb", quantityPerPackage := 1,
    options :=
      [{ name := "Size", values := ["Small"] }, { name := "Fit", values := [] }] }

/-- The Size option of the §8 example, with populated value objects. -/
def demoSizeOption : ProductOption :=
  { id := 10, productRootID := 1, name := "Size",
    values :=
      [{ id := 1, productOptionID := 10, value := "Small" },
       { id := 2, productOptionID := 10, value := "Medium" },
       { id := 3, productOptionID := 10, value := "Large" }] }

/-- The Color option of the §8 example. -/
def demoColorOption : ProductOption :=
  { id := 11, productRootID := 1, name := "Color",
    values :=
      [{ id := 4, productOptionID := 11, value := "Red" },
       { id := 5, productOptionID := 11, value := "Blue" }] }

/-- The §8 option list. -/
def demoOptionList : List ProductOption := [demoSizeOption, demoColorOption]

/-- A schedule that fails exactly the commit round trip of a zero-option
creation run started at call index `0` (existence check `0`, begin `1`,
root `2`, base variant `3`, commit `4`). -/
def failCommitSchedule : FailSchedule := fun k => k == 4

/-- A deletion fixture: one live product with one live bridge row. -/
def demoDeletionState : DeletionState :=
  { db :=
      { roots := [{ id := 1, name := "mug", skuPrefix := "mug" }]
        options := []
        optionValues := []
        products :=
          [{ id := 7, productRootID := 1, name := "mug", sku := "mug",
             optionSummary := "", quantityPerPackage := 1, archivedOn := none }]
        bridges :=
          [{ id := 4, productID := 7, productOptionValueID := 3, archivedOn := none }] }
    calls := 0
    trace := [] }

/-- A bridge table holding a single already-archived row (archived at 5). -/
def archivedBridgeTable : List ProductVariantBridgeRow :=
  [{ id := 1, productID := 2, productOptionValueID := 3, archivedOn := some 5 }]

/-! ## The odometer stepper versus the abstract successor -/

theorem nextAux_nil (ls : List Nat) : nextAux [] ls = [] := rfl

theorem nextAux_single (i : Nat) (ls : List Nat) : nextAux [i] ls = [i + 1] := rfl

theorem nextAux_cons₂ (i j : Nat) (is ls : List Nat) :
    nextAux (i :: j :: is) ls =
      if i + 1 < ls.headD 0 then (i + 1) :: j :: is
      else 0 :: nextAux (j :: is) ls.tail := rfl

theorem nextAux_cons_of_ne (i : Nat) (is ls : List Nat) (h : is ≠ []) :
    nextAux (i :: is) ls =
      if i + 1 < ls.headD 0 then (i + 1) :: is
      else 0 :: nextAux is ls.tail := by
  cases is with
  | nil => exact absurd rfl h
  | cons j t => exact nextAux_cons₂ i j t ls

theorem zerosLike_cons (k : Nat) (ks : List Nat) :
    zerosLike (k :: ks) = 0 :: zerosLike ks := rfl

theorem zerosLike_reverse (ks : List Nat) :
    (zerosLike ks.reverse).reverse = zerosLike ks := by
  simp [zerosLike, List.map_reverse]

theorem succIdx_snoc (ks ls : List Nat) (k l : Nat) (hlen : ks.length = ls.length) :
    succIdx (ks ++ [k]) (ls ++ [l]) =
      if k + 1 < l then some (ks ++ [k + 1])
      else (succIdx ks ls).map (· ++ [0]) := by
  induction ks generalizing ls with
  | nil =>
      cases ls with
      | nil => simp [succIdx, zerosLike]
      | cons _ _ => simp at hlen
  | cons k' ks ih =>
      cases ls with
      | nil => simp at hlen
      | cons l' ls =>
          have hlen' : ks.length = ls.length := by simpa using hlen
          show succIdx (k' :: (ks ++ [k])) (l' :: (ls ++ [l])) = _
          rw [succIdx, ih ls hlen']
          by_cases hk : k + 1 < l
          · simp [hk]
          · simp only [hk, if_false]
            cases hs : succIdx ks ls with
            | none =>
                simp only [hs, Option.map]
                by_cases hk' : k' + 1 < l' <;>
                  simp [hk', succIdx, hs, zerosLike, List.map_append]
            | some t => simp [succIdx, hs]

theorem nextAux_snoc (rks rls : List Nat) (i0 l0 : Nat)
    (hlen : rks.length = rls.length) :
    nextAux (rks ++ [i0]) (rls ++ [l0]) =
      match succIdx rks.reverse rls.reverse with
      | some ks' => ks'.reverse ++ [i0]
      | none => zerosLike rks ++ [i0 + 1] := by
  induction rks generalizing rls with
  | nil =>
      cases rls with
      | nil => simp [nextAux_single, succIdx, zerosLike]
      | cons _ _ => simp at hlen
  | cons i is ih =>
      cases rls with
      | nil => simp at hlen
      | cons l ls =>
          have hlen' : is.length = ls.length := by simpa using hlen
          have hne : is ++ [i0] ≠ [] := by simp
          rw [List.cons_append, List.cons_append, nextAux_cons_of_ne _ _ _ hne]
          have hrev : succIdx ((i :: is).reverse) ((l :: ls).reverse) =
              succIdx (is.reverse ++ [i]) (ls.reverse ++ [l]) := by
            simp [List.reverse_cons]
          rw [hrev, succIdx_snoc _ _ _ _ (by simp [hlen'])]
          by_cases hi : i + 1 < l
          · simp [hi]
          · simp only [List.headD_cons, hi, if_false, List.tail_cons]
            rw [ih ls hlen']
            cases hs : succIdx is.reverse ls.reverse with
            | none => simp [hs, zerosLike]
            | some t => simp [hs, List.reverse_append]

theorem next_decomp (i0 l0 : Nat) (ks ls : List Nat) (hlen : ks.length = ls.length) :
    next (i0 :: ks) (l0 :: ls) =
      match succIdx ks ls with
      | some ks' => i0 :: ks'
      | none => (i0 + 1) :: zerosLike ks := by
  unfold next
  rw [List.reverse_cons, List.reverse_cons,
    nextAux_snoc ks.reverse ls.reverse i0 l0 (by simp [hlen])]
  cases hs : succIdx ks ls with
  | none =>
      simp only [List.reverse_reverse, hs]
      rw [List.reverse_append]
      simp [zerosLike_reverse]
  | some t =>
      simp only [List.reverse_reverse, hs]
      rw [List.reverse_append]
      simp

theorem next_eq_succIdx (i0 l0 : Nat) (ks ls : List Nat) (hlen : ks.length = ls.length) :
    next (i0 :: ks) (l0 :: ls) =
      (succIdx (i0 :: ks) (l0 :: ls)).getD ((i0 + 1) :: zerosLike ks) := by
  rw [next_decomp i0 l0 ks ls hlen]
  show _ = (Option.getD (match succIdx ks ls with
      | some ks' => some (i0 :: ks')
      | none => if i0 + 1 < l0 then some ((i0 + 1) :: zerosLike ks) else none) _)
  cases hs : succIdx ks ls with
  | none => by_cases h0 : i0 + 1 < l0 <;> simp [h0]
  | some t => simp

/-! ## The suffix enumeration `combosFrom` under a valid index vector -/

theorem allCombos_nil {α : Type} : allCombos ([] : List (List α)) = [[]] := rfl

theorem allCombos_cons {α : Type} (d : List α) (ds : List (List α)) :
    allCombos (d :: ds) = d.flatMap fun x => (allCombos ds).map (x :: ·) := rfl

theorem succIdx_cons (k l : Nat) (ks ls : List Nat) :
    succIdx (k :: ks) (l :: ls) =
      match succIdx ks ls with
      | some ks' => some (k :: ks')
      | none => if k + 1 < l then some ((k + 1) :: zerosLike ks) else none := rfl

theorem combosFrom_cons {α : Type} (d : List α) (ds : List (List α)) (k : Nat)
    (ks : List Nat) :
    combosFrom (d :: ds) (k :: ks) =
      match d.drop k with
      | [] => []
      | x :: rest =>
          ((combosFrom ds ks).map (x :: ·)) ++
            (rest.flatMap fun y => (allCombos ds).map (y :: ·)) := rfl

theorem combosFrom_cons_drop {α : Type} {d : List α} {k : Nat} {x : α} {r : List α}
    (hdrop : d.drop k = x :: r) (ds : List (List α)) (ks : List Nat) :
    combosFrom (d :: ds) (k :: ks) =
      ((combosFrom ds ks).map (x :: ·)) ++
        (r.flatMap fun y => (allCombos ds).map (y :: ·)) := by
  rw [combosFrom_cons, hdrop]

theorem combosFrom_cons_past {α : Type} {d : List α} {k : Nat}
    (hdrop : d.drop k = []) (ds : List (List α)) (ks : List Nat) :
    combosFrom (d :: ds) (k :: ks) = [] := by
  rw [combosFrom_cons, hdrop]

theorem ValidIdx.zeros {α : Type} {ds : List (List α)} {ks : List Nat}
    (h : ValidIdx ds ks) : ValidIdx ds (zerosLike ks) := by
  induction h with
  | nil => exact List.Forall₂.nil
  | @cons d k ds ks hk _ ih =>
      exact List.Forall₂.cons (Nat.lt_of_le_of_lt (Nat.zero_le k) hk) ih

theorem ValidIdx.length_eq {α : Type} {ds : List (List α)} {ks : List Nat}
    (h : ValidIdx ds ks) : ds.length = ks.length :=
  List.Forall₂.length_eq h

/-- Under a valid index vector, the selection read by the loop body exists
and is the first element of the remaining enumeration. -/
theorem combosFrom_head {α : Type} {ds : List (List α)} {ks : List Nat}
    (h : ValidIdx ds ks) :
    ∃ sel rest, buildRowAux ds ks = some sel ∧ combosFrom ds ks = sel :: rest := by
  induction h with
  | nil => exact ⟨[], [], rfl, rfl⟩
  | @cons d k ds ks hk _ ih =>
      obtain ⟨sel, rest, hbr, hcf⟩ := ih
      have hget : d[k]? = some d[k] := List.getElem?_eq_getElem hk
      have hdrop : d.drop k = d[k] :: d.drop (k + 1) := List.drop_eq_getElem_cons hk
      refine ⟨d[k] :: sel,
        rest.map (d[k] :: ·) ++
          ((d.drop (k + 1)).flatMap fun y => (allCombos ds).map (y :: ·)), ?_, ?_⟩
      · simp [buildRowAux, hget, hbr]
      · rw [combosFrom_cons_drop hdrop, hcf, List.map_cons, List.cons_append]

/-- Starting from the all-zeros index vector the suffix enumeration is the
entire cartesian product. -/
theorem combosFrom_zerosLike {α : Type} {ds : List (List α)} {ks : List Nat}
    (h : ValidIdx ds ks) : combosFrom ds (zerosLike ks) = allCombos ds := by
  induction h with
  | nil => rfl
  | @cons d k ds ks hk _ ih =>
      cases d with
      | nil => simp at hk
      | cons x rest =>
          rw [zerosLike_cons,
            combosFrom_cons_drop (List.drop_zero (x :: rest)) ds (zerosLike ks), ih,
            allCombos_cons, List.flatMap_cons]

/-- One odometer step: a successful step stays valid and drops exactly the
first remaining combination; an exhausted step means exactly one
combination was left. -/
theorem succIdx_step {α : Type} {ds : List (List α)} {ks : List Nat}
    (h : ValidIdx ds ks) :
    (∀ ks', succIdx ks (ds.map List.length) = some ks' →
        ValidIdx ds ks' ∧ combosFrom ds ks' = (combosFrom ds ks).tail) ∧
      (succIdx ks (ds.map List.length) = none → ∃ sel, combosFrom ds ks = [sel]) := by
  induction h with
  | nil =>
      refine ⟨fun ks' hks' => ?_, fun _ => ⟨[], rfl⟩⟩
      simp [succIdx] at hks'
  | @cons d k ds ks hk htl ih =>
      have hget : d[k]? = some d[k] := List.getElem?_eq_getElem hk
      have hdrop : d.drop k = d[k] :: d.drop (k + 1) := List.drop_eq_getElem_cons hk
      obtain ⟨sel, rest, _, hcf⟩ := combosFrom_head htl
      constructor
      · intro ks' hks'
        rw [List.map_cons, succIdx_cons] at hks'
        cases hs : succIdx ks (ds.map List.length) with
        | some t =>
            rw [hs] at hks'
            obtain ⟨hvt, hcft⟩ := ih.1 t hs
            cases hks'
            refine ⟨List.Forall₂.cons hk hvt, ?_⟩
            rw [hcf, List.tail_cons] at hcft
            rw [combosFrom_cons_drop hdrop ds t, hcft,
              combosFrom_cons_drop hdrop ds ks, hcf, List.map_cons, List.cons_append,
              List.tail_cons]
        | none =>
            rw [hs] at hks'
            obtain ⟨sel₀, hsel₀⟩ := ih.2 hs
            by_cases hk1 : k + 1 < d.length
            · rw [if_pos hk1] at hks'
              cases hks'
              refine ⟨List.Forall₂.cons hk1 (ValidIdx.zeros htl), ?_⟩
              have hdrop1 : d.drop (k + 1) = d[k + 1] :: d.drop (k + 2) :=
                List.drop_eq_getElem_cons hk1
              rw [combosFrom_cons_drop hdrop1 ds (zerosLike ks),
                combosFrom_zerosLike htl,
                combosFrom_cons_drop hdrop ds ks, hsel₀, hdrop1, List.map_cons,
                List.map_nil, List.flatMap_cons, List.cons_append, List.nil_append,
                List.tail_cons]
            · rw [if_neg hk1] at hks'
              cases hks'
      · intro hnone
        rw [List.map_cons, succIdx_cons] at hnone
        cases hs : succIdx ks (ds.map List.length) with
        | some t => rw [hs] at hnone; cases hnone
        | none =>
            rw [hs] at hnone
            by_cases hk1 : k + 1 < d.length
            · rw [if_pos hk1] at hnone; cases hnone
            · obtain ⟨sel₀, hsel₀⟩ := ih.2 hs
              have hlen : d.length ≤ k + 1 := Nat.le_of_not_lt hk1
              have hdrop1 : d.drop (k + 1) = [] := List.drop_eq_nil_of_le hlen
              refine ⟨d[k] :: sel₀, ?_⟩
              rw [combosFrom_cons_drop hdrop ds ks, hsel₀, hdrop1, List.map_cons,
                List.map_nil, List.flatMap_nil, List.append_nil]

/-! ## The enumeration loop computes the cartesian product in odometer order -/

theorem valid_replicate {α : Type} {ds : List (List α)} (h : ∀ d ∈ ds, d ≠ []) :
    ValidIdx ds (List.replicate ds.length 0) := by
  induction ds with
  | nil => exact List.Forall₂.nil
  | cons d ds ih =>
      rw [List.length_cons, List.replicate_succ]
      exact List.Forall₂.cons
        (List.length_pos.mpr (h d (List.mem_cons_self d ds)))
        (ih fun d' hd' => h d' (List.mem_cons_of_mem d hd'))

theorem zerosLike_replicate (n : Nat) :
    zerosLike (List.replicate n 0) = List.replicate n 0 := by
  simp [zerosLike]

theorem sum_map_length_const {α : Type} (d : List α) (P : Nat) :
    (d.map fun _ => P).sum = d.length * P := by
  induction d with
  | nil => simp
  | cons x t ih => simp [ih, Nat.succ_mul, Nat.add_comm]

theorem length_allCombos {α : Type} (ds : List (List α)) :
    (allCombos ds).length = (ds.map List.length).prod := by
  induction ds with
  | nil => rfl
  | cons d ds ih =>
      rw [allCombos_cons, List.length_flatMap]
      have h1 : (List.map (List.length ∘ fun x => (allCombos ds).map (x :: ·)) d) =
          List.replicate d.length (allCombos ds).length := by
        simp [Function.comp_def]
      rw [h1, List.sum_replicate, smul_eq_mul, ih, List.map_cons, List.prod_cons]

theorem cartLoop_succ_cons (d0 : List OptionPlaceholder)
    (ds : List (List OptionPlaceholder)) (fuel i0 : Nat) (ks : List Nat) :
    cartLoop (d0 :: ds) (fuel + 1) (i0 :: ks) =
      if i0 < d0.length then
        match buildRowAux (d0 :: ds) (i0 :: ks) with
        | none => none
        | some row =>
            (cartLoop (d0 :: ds) fuel
                (next (i0 :: ks) ((d0 :: ds).map List.length))).map
              (rowToSimpleOption row :: ·)
      else some [] := rfl

/-- One loop iteration: after `next`, the index vector is again a head with
a valid tail, the head stays in bounds (allowing equality, the exit test),
and the remaining enumeration loses exactly its first element. -/
theorem cartLoop_step {α : Type} {d0 : List α} {ds : List (List α)} {i0 : Nat}
    {ks : List Nat} (hlt : i0 < d0.length) (htl : ValidIdx ds ks) :
    ∃ j0 js, next (i0 :: ks) ((d0 :: ds).map List.length) = j0 :: js ∧
      j0 ≤ d0.length ∧ ValidIdx ds js ∧
      combosFrom (d0 :: ds) (j0 :: js) = (combosFrom (d0 :: ds) (i0 :: ks)).tail := by
  have hfull : ValidIdx (d0 :: ds) (i0 :: ks) := List.Forall₂.cons hlt htl
  have hlen : ks.length = (ds.map List.length).length := by
    have := ValidIdx.length_eq htl
    simp [← this]
  rw [List.map_cons, next_eq_succIdx i0 d0.length ks (ds.map List.length) hlen]
  cases hs : succIdx (i0 :: ks) (d0.length :: ds.map List.length) with
  | some v =>
      have hs' : succIdx (i0 :: ks) ((d0 :: ds).map List.length) = some v := by
        rw [List.map_cons]; exact hs
      obtain ⟨hv, hcf⟩ := (succIdx_step hfull).1 v hs'
      cases v with
      | nil => cases hv
      | cons v0 vs =>
          rcases hv with _ | ⟨h1, h2⟩
          exact ⟨v0, vs, rfl, Nat.le_of_lt h1, h2, hcf⟩
  | none =>
      have hs' : succIdx (i0 :: ks) ((d0 :: ds).map List.length) = none := by
        rw [List.map_cons]; exact hs
      obtain ⟨sel, hsel⟩ := (succIdx_step hfull).2 hs'
      have hnotlt : ¬ i0 + 1 < d0.length := by
        intro hcon
        rw [succIdx_cons] at hs
        cases hinner : succIdx ks (ds.map List.length) with
        | some t => rw [hinner] at hs; cases hs
        | none => rw [hinner, if_pos hcon] at hs; cases hs
      have hdrop1 : d0.drop (i0 + 1) = [] :=
        List.drop_eq_nil_of_le (Nat.le_of_not_lt hnotlt)
      refine ⟨i0 + 1, zerosLike ks, rfl, hlt, ValidIdx.zeros htl, ?_⟩
      rw [combosFrom_cons_past hdrop1 ds (zerosLike ks), hsel, List.tail_cons]

/-- Master lemma: from any in-bounds loop state and with enough fuel, the
source loop enumerates exactly the remaining suffix of the cartesian
product, already packaged by `rowToSimpleOption`. -/
theorem cartLoop_spec (d0 : List OptionPlaceholder)
    (ds : List (List OptionPlaceholder)) :
    ∀ (fuel i0 : Nat) (ks : List Nat), i0 ≤ d0.length → ValidIdx ds ks →
      (combosFrom (d0 :: ds) (i0 :: ks)).length + 1 ≤ fuel →
      cartLoop (d0 :: ds) fuel (i0 :: ks) =
        some ((combosFrom (d0 :: ds) (i0 :: ks)).map rowToSimpleOption) := by
  intro fuel
  induction fuel with
  | zero => intro i0 ks _ _ hfuel; omega
  | succ n ih =>
      intro i0 ks h0 htl hfuel
      by_cases hlt : i0 < d0.length
      · have hfull : ValidIdx (d0 :: ds) (i0 :: ks) := List.Forall₂.cons hlt htl
        obtain ⟨row, rest, hbr, hcf⟩ := combosFrom_head hfull
        obtain ⟨j0, js, hnext, hj0, hjs, hcf'⟩ := cartLoop_step hlt htl
        rw [cartLoop_succ_cons, if_pos hlt, hbr, hnext]
        rw [hcf, List.tail_cons] at hcf'
        have hlenrest : (combosFrom (d0 :: ds) (j0 :: js)).length + 1 ≤ n := by
          rw [hcf'];
          have : (combosFrom (d0 :: ds) (i0 :: ks)).length = rest.length + 1 := by
            rw [hcf, List.length_cons]
          omega
        rw [ih j0 js hj0 hjs hlenrest, hcf', hcf]
        simp
      · rw [cartLoop_succ_cons, if_neg hlt,
          combosFrom_cons_past (List.drop_eq_nil_of_le (Nat.le_of_not_lt hlt)) ds ks]
        rfl

/-- The Enumerator on a nonempty option list in which every option has at
least one value: the output is defined (no panic, the fuel is sufficient)
and equals the cartesian product in odometer order. -/
theorem generateCartesian_eq_allCombos (opts : List ProductOption)
    (hne : opts ≠ []) (hv : ∀ o ∈ opts, o.values ≠ []) :
    generateCartesianProductForOptions opts =
      some ((allCombos (buildOptionData opts)).map rowToSimpleOption) := by
  have hD : ∀ d ∈ buildOptionData opts, d ≠ [] := by
    intro d hd
    rw [buildOptionData, List.mem_map] at hd
    obtain ⟨o, ho, rfl⟩ := hd
    simp only [ne_eq, List.map_eq_nil_iff]
    exact hv o ho
  have hvalid : ValidIdx (buildOptionData opts) (List.replicate (buildOptionData opts).length 0) :=
    valid_replicate hD
  have hcf : combosFrom (buildOptionData opts) (List.replicate (buildOptionData opts).length 0) =
      allCombos (buildOptionData opts) := by
    have := combosFrom_zerosLike hvalid
    rwa [zerosLike_replicate] at this
  cases hDne : buildOptionData opts with
  | nil =>
      exact absurd (by simpa [buildOptionData, List.map_eq_nil_iff] using hDne) hne
  | cons d0 dsD =>
      simp only [generateCartesianProductForOptions]
      rw [hDne] at hvalid hcf ⊢
      rw [List.length_cons, List.replicate_succ] at hvalid hcf ⊢
      rcases hvalid with _ | ⟨h1, h2⟩
      have hfuel : (combosFrom (d0 :: dsD) (0 :: List.replicate dsD.length 0)).length + 1 ≤
          ((d0 :: dsD).map List.length).prod + 1 := by
        rw [hcf, length_allCombos]
      rw [cartLoop_spec d0 dsD _ 0 (List.replicate dsD.length 0) (Nat.le_of_lt h1) h2 hfuel,
        hcf]

/-! ## Membership and transport lemmas for `allCombos` -/

theorem mem_allCombos {α : Type} {ds : List (List α)} {r : List α} :
    r ∈ allCombos ds ↔ List.Forall₂ (fun x d => x ∈ d) r ds := by
  induction ds generalizing r with
  | nil =>
      rw [allCombos_nil]
      constructor
      · intro h
        rw [List.mem_singleton] at h
        subst h
        exact List.Forall₂.nil
      · intro h
        cases h
        exact List.mem_singleton.mpr rfl
  | cons d ds ih =>
      rw [allCombos_cons]
      constructor
      · intro hr
        rw [List.mem_flatMap] at hr
        obtain ⟨x, hx, hr⟩ := hr
        rw [List.mem_map] at hr
        obtain ⟨t, ht, rfl⟩ := hr
        exact List.Forall₂.cons hx (ih.mp ht)
      · intro h
        cases h with
        | cons h1 h2 =>
            rw [List.mem_flatMap]
            exact ⟨_, h1, List.mem_map.mpr ⟨_, ih.mpr h2, rfl⟩⟩

theorem length_of_mem_allCombos {α : Type} {ds : List (List α)} {r : List α}
    (h : r ∈ allCombos ds) : r.length = ds.length :=
  List.Forall₂.length_eq (mem_allCombos.mp h)

theorem allCombos_map {α β : Type} (f : α → β) (ds : List (List α)) :
    allCombos (ds.map (List.map f)) = (allCombos ds).map (List.map f) := by
  induction ds with
  | nil => rfl
  | cons d ds ih =>
      rw [List.map_cons, allCombos_cons, allCombos_cons, ih, List.map_flatMap,
        List.flatMap_map]
      congr 1
      funext x
      simp [List.map_map, Function.comp_def]

theorem buildOptionData_cons (o : ProductOption) (os : List ProductOption) :
    buildOptionData (o :: os) = (o.values.map (mkPlaceholder o)) :: buildOptionData os := rfl

theorem allCombos_buildOptionData (os : List ProductOption) :
    allCombos (buildOptionData os) =
      (allCombos (os.map (·.values))).map fun vrow => List.zipWith mkPlaceholder os vrow := by
  induction os with
  | nil => rfl
  | cons o os ih =>
      rw [buildOptionData_cons, allCombos_cons, List.map_cons, allCombos_cons, ih,
        List.flatMap_map, List.map_flatMap]
      congr 1
      funext v
      simp [List.map_map, Function.comp_def]

theorem zipWith_snd_map {α β γ : Type} (g : β → γ) :
    ∀ (as : List α) (bs : List β), as.length = bs.length →
      List.zipWith (fun _ b => g b) as bs = bs.map g := by
  intro as
  induction as with
  | nil =>
      intro bs h
      cases bs with
      | nil => rfl
      | cons b bs => simp at h
  | cons a as ih =>
      intro bs h
      cases bs with
      | nil => simp at h
      | cons b bs =>
          rw [List.zipWith_cons_cons, List.map_cons, ih bs (by simpa using h)]

/-! ## The shapes produced by the orchestrator loops -/

theorem mkValues_length (optionID : Nat) (vals : List String) :
    ∀ base, (mkValues optionID base vals).length = vals.length := by
  induction vals with
  | nil => intro base; rfl
  | cons v rest ih => intro base; simp [mkValues, ih]

theorem mkValues_map_value (optionID : Nat) (vals : List String) :
    ∀ base, (mkValues optionID base vals).map (·.value) = vals := by
  induction vals with
  | nil => intro base; rfl
  | cons v rest ih => intro base; simp [mkValues, ih]

theorem mkOptions_length (rootID : Nat) (inputs : List ProductOptionCreationInput) :
    ∀ base, (mkOptions rootID base inputs).length = inputs.length := by
  induction inputs with
  | nil => intro base; rfl
  | cons i rest ih => intro base; simp [mkOptions, ih]

theorem mkOptions_map_name (rootID : Nat) (inputs : List ProductOptionCreationInput) :
    ∀ base, (mkOptions rootID base inputs).map (·.name) = inputs.map (·.name) := by
  induction inputs with
  | nil => intro base; rfl
  | cons i rest ih => intro base; simp [mkOptions, mkOption, ih]

theorem mkOptions_map_values (rootID : Nat) (inputs : List ProductOptionCreationInput) :
    ∀ base, (mkOptions rootID base inputs).map (fun o => o.values.map (·.value)) =
      inputs.map (·.values) := by
  induction inputs with
  | nil => intro base; rfl
  | cons i rest ih =>
      intro base
      simp [mkOptions, mkOption, ih, mkValues_map_value]

theorem mkOptions_values_length (rootID : Nat) (inputs : List ProductOptionCreationInput) :
    ∀ base, (mkOptions rootID base inputs).map (fun o => o.values.length) =
      inputs.map (fun i => i.values.length) := by
  induction inputs with
  | nil => intro base; rfl
  | cons i rest ih =>
      intro base
      simp [mkOptions, mkOption, ih, mkValues_length]

theorem mkOptions_values_ne (rootID : Nat) (inputs : List ProductOptionCreationInput)
    (hv : ∀ i ∈ inputs, i.values ≠ []) :
    ∀ base, ∀ o ∈ mkOptions rootID base inputs, o.values ≠ [] := by
  induction inputs with
  | nil => intro base o ho; cases ho
  | cons i rest ih =>
      intro base o ho
      rw [mkOptions, List.mem_cons] at ho
      cases ho with
      | inl h =>
          subst h
          intro hcon
          simp only [mkOption] at hcon
          have hlen := mkValues_length base i.values (base + 1)
          rw [hcon] at hlen
          exact hv i (List.mem_cons_self i rest) (List.length_eq_zero.mp hlen.symm)
      | inr h =>
          exact ih (fun j hj => hv j (List.mem_cons_of_mem i hj)) _ o h

theorem mkBridgeRows_length (productID : Nat) (ids : List Nat) :
    ∀ base, (mkBridgeRows productID base ids).length = ids.length := by
  induction ids with
  | nil => intro base; rfl
  | cons v rest ih => intro base; simp [mkBridgeRows, ih]

theorem buildOptionData_lengths (os : List ProductOption) :
    (buildOptionData os).map List.length = os.map fun o => o.values.length := by
  simp [buildOptionData, List.map_map, Function.comp_def]

/-! ## Evaluation of the store calls under the all-success schedule -/

theorem clientCreateProductRoot_noFail (name skuPrefix : String) (ts : TxState) :
    clientCreateProductRoot noFail name skuPrefix ts =
      .ok (ts.nextID,
        { tx := { ts.tx with
            roots := ts.tx.roots ++ [{ id := ts.nextID, name := name, skuPrefix := skuPrefix }] }
          nextID := ts.nextID + 1
          calls := ts.calls + 1 }) := rfl

theorem clientCreateProductOption_noFail (productRootID : Nat) (name : String)
    (ts : TxState) :
    clientCreateProductOption noFail productRootID name ts =
      .ok (ts.nextID,
        { tx := { ts.tx with
            options := ts.tx.options ++
              [{ id := ts.nextID, productRootID := productRootID, name := name,
                 archivedOn := none }] }
          nextID := ts.nextID + 1
          calls := ts.calls + 1 }) := rfl

theorem clientCreateProductOptionValue_noFail (optionID : Nat) (v : String)
    (ts : TxState) :
    clientCreateProductOptionValue noFail optionID v ts =
      .ok (ts.nextID,
        { tx := { ts.tx with
            optionValues := ts.tx.optionValues ++
              [{ id := ts.nextID, productOptionID := optionID, value := v }] }
          nextID := ts.nextID + 1
          calls := ts.calls + 1 }) := rfl

theorem clientCreateProduct_noFail (p : ProductRow) (ts : TxState) :
    clientCreateProduct noFail p ts =
      .ok (ts.nextID,
        { tx := { ts.tx with products := ts.tx.products ++ [{ p with id := ts.nextID }] }
          nextID := ts.nextID + 1
          calls := ts.calls + 1 }) := rfl

theorem clientCreateMultipleProductVariantBridges_noFail (productID : Nat)
    (ids : List Nat) (ts : TxState) :
    clientCreateMultipleProductVariantBridges noFail productID ids ts =
      .ok { tx := { ts.tx with
              bridges := ts.tx.bridges ++ mkBridgeRows productID ts.nextID ids }
            nextID := ts.nextID + ids.length
            calls := ts.calls + 1 } := rfl

theorem createOptionValuesLoop_noFail (optionID : Nat) (vals : List String) :
    ∀ (acc : List ProductOptionValue) (ts : TxState),
      createOptionValuesLoop noFail optionID vals acc ts =
        .ok (acc ++ mkValues optionID ts.nextID vals,
          { tx := { ts.tx with
              optionValues := ts.tx.optionValues ++ mkValues optionID ts.nextID vals }
            nextID := ts.nextID + vals.length
            calls := ts.calls + vals.length }) := by
  induction vals with
  | nil =>
      intro acc ts
      simp [createOptionValuesLoop, mkValues]
  | cons v rest ih =>
      intro acc ts
      simp only [createOptionValuesLoop, clientCreateProductOptionValue_noFail]
      rw [ih]
      simp [mkValues, List.append_assoc, Nat.add_comm, Nat.add_left_comm, Nat.add_assoc]

theorem createProductOptionAndValuesInDBFromInput_noFail
    (i : ProductOptionCreationInput) (rootID : Nat) (ts : TxState) :
    createProductOptionAndValuesInDBFromInput noFail i rootID ts =
      .ok (mkOption rootID ts.nextID i,
        { tx := { ts.tx with
            options := ts.tx.options ++
              [{ id := ts.nextID, productRootID := rootID, name := i.name,
                 archivedOn := none }]
            optionValues := ts.tx.optionValues ++ mkValues ts.nextID (ts.nextID + 1) i.values }
          nextID := ts.nextID + 1 + i.values.length
          calls := ts.calls + 1 + i.values.length }) := by
  simp only [createProductOptionAndValuesInDBFromInput, clientCreateProductOption_noFail]
  rw [createOptionValuesLoop_noFail]
  simp [mkOption, Nat.add_assoc]

theorem createOptionsLoop_noFail (rootID : Nat) (inputs : List ProductOptionCreationInput) :
    ∀ (acc : List ProductOption) (ts : TxState), ∃ ts' : TxState,
      createOptionsLoop noFail inputs rootID acc ts =
        .ok (acc ++ mkOptions rootID ts.nextID inputs, ts') ∧
      ts'.tx.roots = ts.tx.roots ∧
      ts'.tx.products = ts.tx.products ∧
      ts'.tx.bridges = ts.tx.bridges := by
  induction inputs with
  | nil =>
      intro acc ts
      exact ⟨ts, by simp [createOptionsLoop, mkOptions], rfl, rfl, rfl⟩
  | cons i rest ih =>
      intro acc ts
      obtain ⟨ts', heq, hr, hp, hb⟩ := ih (acc ++ [mkOption rootID ts.nextID i])
        { tx := { ts.tx with
            options := ts.tx.options ++
              [{ id := ts.nextID, productRootID := rootID, name := i.name,
                 archivedOn := none }]
            optionValues := ts.tx.optionValues ++ mkValues ts.nextID (ts.nextID + 1) i.values }
          nextID := ts.nextID + 1 + i.values.length
          calls := ts.calls + 1 + i.values.length }
      refine ⟨ts', ?_, ?_, ?_, ?_⟩
      · simp only [createOptionsLoop, createProductOptionAndValuesInDBFromInput_noFail]
        exact heq.trans (by simp [mkOptions, List.append_assoc])
      · exact hr
      · exact hp
      · exact hb

theorem createVariantsLoop_noFail (rootID : Nat) (skuPrefix : String) (np : ProductRow)
    (combos : List SimpleProductOption) :
    ∀ (acc : List ProductRow) (ts : TxState),
      ∃ (ps : List ProductRow) (ts' : TxState),
        createVariantsLoop noFail rootID skuPrefix np combos acc ts = .ok (acc ++ ps, ts') ∧
        ps.map (fun p => p.sku) = combos.map (fun s => skuPrefix ++ "_" ++ s.skuPostfix) ∧
        ps.map (fun p => p.optionSummary) = combos.map (fun s => s.optionSummary) ∧
        (∀ p ∈ ps, p.quantityPerPackage = np.quantityPerPackage) ∧
        ts'.tx.products = ts.tx.products ++ ps ∧
        ts'.tx.bridges.length = ts.tx.bridges.length + (combos.map fun s => s.ids.length).sum ∧
        ts'.tx.roots = ts.tx.roots := by
  induction combos with
  | nil =>
      intro acc ts
      exact ⟨[], ts, by simp [createVariantsLoop], rfl, rfl, by simp, by simp, by simp, rfl⟩
  | cons s rest ih =>
      intro acc ts
      obtain ⟨ps, ts', heq, hsku, hsum, hqpp, hprod, hbr, hroots⟩ :=
        ih (acc ++
            [{ np with
                id := ts.nextID
                productRootID := rootID
                optionSummary := s.optionSummary
                sku := skuPrefix ++ "_" ++ s.skuPostfix }])
          { tx := { ts.tx with
              products := ts.tx.products ++
                [{ np with
                    id := ts.nextID
                    productRootID := rootID
                    optionSummary := s.optionSummary
                    sku := skuPrefix ++ "_" ++ s.skuPostfix }]
              bridges := ts.tx.bridges ++ mkBridgeRows ts.nextID (ts.nextID + 1) s.ids }
            nextID := ts.nextID + 1 + s.ids.length
            calls := ts.calls + 1 + 1 }
      refine ⟨{ np with
          id := ts.nextID
          productRootID := rootID
          optionSummary := s.optionSummary
          sku := skuPrefix ++ "_" ++ s.skuPostfix } :: ps, ts', ?_, ?_, ?_, ?_, ?_, ?_, ?_⟩
      · simp only [createVariantsLoop, clientCreateProduct_noFail,
          clientCreateMultipleProductVariantBridges_noFail]
        exact heq.trans (by simp [List.append_assoc])
      · simp [hsku]
      · simp [hsum]
      · intro p hp
        rcases List.mem_cons.mp hp with h | h
        · subst h; rfl
        · exact hqpp p h
      · rw [hprod]; simp [List.append_assoc]
      · rw [hbr]
        simp [mkBridgeRows_length]
        omega
      · rw [hroots]

/-! ## The successful commit runs -/

theorem buildOptionData_length (os : List ProductOption) :
    (buildOptionData os).length = os.length := by
  simp [buildOptionData]

theorem zipWith_name_value (os : List ProductOption)
    (inputs : List ProductOptionCreationInput) (vrow : List ProductOptionValue)
    (hn : os.map (·.name) = inputs.map (·.name)) :
    List.zipWith (fun o v => o.name ++ ": " ++ v.value) os vrow =
      List.zipWith (fun (i : ProductOptionCreationInput) (s : String) =>
        i.name ++ ": " ++ s) inputs (vrow.map (·.value)) := by
  induction os generalizing inputs vrow with
  | nil =>
      cases inputs with
      | nil => rfl
      | cons i irest => simp at hn
  | cons o os ih =>
      cases inputs with
      | nil => simp at hn
      | cons i irest =>
          cases vrow with
          | nil => rfl
          | cons v vr =>
              simp only [List.map_cons] at hn
              obtain ⟨h1, h2⟩ := List.cons_eq_cons.mp hn
              simp only [List.map_cons, List.zipWith_cons_cons, h1, ih irest vr h2]

/-- A zero-option payload under the all-success schedule: the handler
commits exactly the base product (with the floored quantity-per-package)
and no bridge rows. -/
theorem commitCatalog_noFail_nil (input : ProductCreationInput) (st : CatalogState)
    (hsku : restrictedStringIsValid input.sku = true)
    (hfresh : st.db.roots.any (fun r => r.skuPrefix == input.sku) = false)
    (hnil : input.options = []) :
    (commitCatalog noFail input st).1.isCreated = true ∧
    ((commitCatalog noFail input st).2).db.products =
      st.db.products ++
        [{ id := st.nextID + 1, productRootID := st.nextID, name := input.name,
           sku := input.sku, optionSummary := "",
           quantityPerPackage := max input.quantityPerPackage 1, archivedOn := none }] ∧
    ((commitCatalog noFail input st).2).db.bridges = st.db.bridges := by
  simp [commitCatalog, hsku, hfresh, hnil, noFail, clientCreateProductRoot_noFail,
    clientCreateProduct_noFail, createOptionsLoop, newProductFromCreationInput,
    createProductRootFromProduct, CreationResponse.isCreated]

/-- A nonempty-option payload (every option with at least one value) under
the all-success schedule: the handler commits one product per enumerated
combination, with the derived SKUs and summaries, `n` bridge rows per
product, and the floored quantity-per-package. -/
theorem commitCatalog_noFail_cons (input : ProductCreationInput) (st : CatalogState)
    (hsku : restrictedStringIsValid input.sku = true)
    (hfresh : st.db.roots.any (fun r => r.skuPrefix == input.sku) = false)
    (hvals : ∀ o ∈ input.options, o.values ≠ [])
    (hne : input.options ≠ []) :
    ∃ ps : List ProductRow,
      (commitCatalog noFail input st).1.isCreated = true ∧
      ((commitCatalog noFail input st).2).db.products = st.db.products ++ ps ∧
      ps.length = (input.options.map fun o => o.values.length).prod ∧
      ((commitCatalog noFail input st).2).db.bridges.length =
        st.db.bridges.length +
          input.options.length * (input.options.map fun o => o.values.length).prod ∧
      (∀ p ∈ ps, p.quantityPerPackage = max input.quantityPerPackage 1) ∧
      ps.map (fun p => p.sku) =
        (allCombos (input.options.map (·.values))).map
          (fun c => input.sku ++ "_" ++ String.intercalate "_" (c.map goToLower)) ∧
      ps.map (fun p => p.optionSummary) =
        (allCombos (input.options.map (·.values))).map
          (fun c => String.intercalate ", "
            (List.zipWith
              (fun (o : ProductOptionCreationInput) (v : String) => o.name ++ ": " ++ v)
              input.options c)) := by
  have hlen0 : (input.options.length == 0) = false := by
    rw [beq_eq_false_iff_ne]
    simpa [List.length_eq_zero] using hne
  simp only [commitCatalog, hsku, hfresh, noFail, Bool.false_eq_true,
    Bool.true_eq_false, if_false, createProductRootFromProduct,
    newProductFromCreationInput, clientCreateProductRoot_noFail, reduceIte]
  obtain ⟨ts2, heq2, hr2, hp2, hb2⟩ :=
    createOptionsLoop_noFail st.nextID input.options []
      { tx := { st.db with
          roots := st.db.roots ++
            [{ id := st.nextID, name := input.name, skuPrefix := input.sku }] }
        nextID := st.nextID + 1
        calls := st.calls + 1 + 1 + 1 }
  rw [heq2]
  simp only [hlen0, Bool.false_eq_true, if_false, List.nil_append,
    createProductsInDBFromOptionRows, reduceIte]
  have hosne : mkOptions st.nextID (st.nextID + 1) input.options ≠ [] := by
    cases hoc : input.options with
    | nil => exact absurd hoc hne
    | cons i r => simp [mkOptions]
  have hosvals := mkOptions_values_ne st.nextID input.options hvals (st.nextID + 1)
  have hgen := generateCartesian_eq_allCombos _ hosne hosvals
  rw [hgen]
  obtain ⟨ps, ts3, heq3, hsku3, hsum3, hqpp3, hprod3, hbr3, hroots3⟩ :=
    createVariantsLoop_noFail st.nextID input.sku
      { id := 0, productRootID := 0, name := input.name, sku := input.sku,
        optionSummary := "", quantityPerPackage := max input.quantityPerPackage 1,
        archivedOn := none }
      ((allCombos (buildOptionData (mkOptions st.nextID (st.nextID + 1) input.options))).map
        rowToSimpleOption)
      [] ts2
  simp only [heq3, List.nil_append]
  refine ⟨ps, by simp [CreationResponse.isCreated], ?_, ?_, ?_, ?_, ?_, ?_⟩
  · simp only [hprod3]
    rw [hp2]
  · have h1 := congrArg List.length hsku3
    simp only [List.length_map] at h1
    rw [h1, length_allCombos, buildOptionData_lengths,
      mkOptions_values_length st.nextID input.options (st.nextID + 1)]
  · have hptw : ∀ r ∈ allCombos (buildOptionData (mkOptions st.nextID (st.nextID + 1) input.options)),
        ((rowToSimpleOption r).ids.length) =
          (buildOptionData (mkOptions st.nextID (st.nextID + 1) input.options)).length := by
      intro r hr
      simp only [rowToSimpleOption, List.length_map]
      exact length_of_mem_allCombos hr
    have hmap : List.map (fun r => (rowToSimpleOption r).ids.length)
        (allCombos (buildOptionData (mkOptions st.nextID (st.nextID + 1) input.options))) =
      List.map (fun _ => (buildOptionData (mkOptions st.nextID (st.nextID + 1) input.options)).length)
        (allCombos (buildOptionData (mkOptions st.nextID (st.nextID + 1) input.options))) :=
      List.map_congr_left fun r hr => hptw r hr
    rw [hbr3, hb2, List.map_map]
    simp only [Function.comp_def]
    rw [hmap, sum_map_length_const, length_allCombos, buildOptionData_lengths,
      mkOptions_values_length st.nextID input.options (st.nextID + 1),
      buildOptionData_length, mkOptions_length st.nextID input.options (st.nextID + 1)]
    simp [Nat.mul_comm]
  · intro p hp
    rw [hqpp3 p hp]
  · rw [hsku3, List.map_map, allCombos_buildOptionData, List.map_map]
    have hstr : input.options.map (·.values) =
        ((mkOptions st.nextID (st.nextID + 1) input.options).map (·.values)).map
          (List.map (·.value)) := by
      rw [List.map_map]
      exact (mkOptions_map_values st.nextID input.options (st.nextID + 1)).symm
    rw [hstr, allCombos_map, List.map_map]
    refine List.map_congr_left ?_
    intro vrow hvr
    have hl : (mkOptions st.nextID (st.nextID + 1) input.options).length = vrow.length := by
      have := length_of_mem_allCombos hvr
      simpa using this.symm
    simp only [Function.comp_def, rowToSimpleOption]
    congr 1
    rw [List.map_zipWith]
    simp only [mkPlaceholder]
    rw [zipWith_snd_map (fun v => goToLower v.value) _ vrow hl, List.map_map]
    rfl
  · rw [hsum3, List.map_map, allCombos_buildOptionData, List.map_map]
    have hstr : input.options.map (·.values) =
        ((mkOptions st.nextID (st.nextID + 1) input.options).map (·.values)).map
          (List.map (·.value)) := by
      rw [List.map_map]
      exact (mkOptions_map_values st.nextID input.options (st.nextID + 1)).symm
    rw [hstr, allCombos_map, List.map_map]
    refine List.map_congr_left ?_
    intro vrow hvr
    simp only [Function.comp_def, rowToSimpleOption]
    congr 1
    rw [List.map_zipWith]
    simp only [mkPlaceholder]
    exact zipWith_name_value _ input.options vrow
      (mkOptions_map_name st.nextID input.options (st.nextID + 1))

/-! ## Claim theorems on the Commit Orchestrator's successful runs -/

/-- C1: for every creation payload whose options all have at least one
value, a successful `CommitCatalog` run creates exactly `v1 × … × vn`
variants and `n × (v1 × … × vn)` bridge rows; with zero options it creates
exactly one variant (the base product) and zero bridge rows (the empty
product is `1`, so both readings are the same formula). -/
theorem commitCatalog_variant_and_bridge_counts (input : ProductCreationInput)
    (st : CatalogState)
    (hsku : restrictedStringIsValid input.sku = true)
    (hfresh : (st.db.roots.any fun r => r.skuPrefix == input.sku) = false)
    (hvals : ∀ o ∈ input.options, o.values ≠ []) :
    (commitCatalog noFail input st).1.isCreated = true ∧
    ((commitCatalog noFail input st).2).db.products.length =
      st.db.products.length + (input.options.map fun o => o.values.length).prod ∧
    ((commitCatalog noFail input st).2).db.bridges.length =
      st.db.bridges.length +
        input.options.length * (input.options.map fun o => o.values.length).prod := by
  by_cases hnil : input.options = []
  · obtain ⟨h1, h2, h3⟩ := commitCatalog_noFail_nil input st hsku hfresh hnil
    refine ⟨h1, ?_, ?_⟩
    · rw [h2]; simp [hnil]
    · rw [h3]; simp [hnil]
  · obtain ⟨ps, h1, h2, h3, h4, _, _, _⟩ :=
      commitCatalog_noFail_cons input st hsku hfresh hvals hnil
    exact ⟨h1, by rw [h2]; simp [h3], h4⟩

/-- Witness for C1 at the §8 shirt example: 2 options with 3 and 2 values
give 6 variants and 12 bridge rows. -/
theorem commitCatalog_variant_and_bridge_counts_witness :
    restrictedStringIsValid demoInput.sku = true ∧
    (freshState.db.roots.any fun r => r.skuPrefix == demoInput.sku) = false ∧
    (∀ o ∈ demoInput.options, o.values ≠ []) ∧
    ((commitCatalog noFail demoInput freshState).1.isCreated = true ∧
      ((commitCatalog noFail demoInput freshState).2).db.products.length =
        freshState.db.products.length +
          (demoInput.options.map fun o => o.values.length).prod ∧
      ((commitCatalog noFail demoInput freshState).2).db.bridges.length =
        freshState.db.bridges.length +
          demoInput.options.length * (demoInput.options.map fun o => o.values.length).prod) :=
  ⟨by decide, by decide, by decide,
    commitCatalog_variant_and_bridge_counts demoInput freshState
      (by decide) (by decide) (by decide)⟩

/-- C3: every variant committed for a nonempty option list carries the SKU
`root.sku_prefix ++ "_" ++ lowercased selected values joined by "_"` and
the summary `"OptionName: Value"` pairs joined by `", "`, both in option
input order, combination by combination. -/
theorem commitCatalog_variant_sku_and_summary (input : ProductCreationInput)
    (st : CatalogState)
    (hsku : restrictedStringIsValid input.sku = true)
    (hfresh : (st.db.roots.any fun r => r.skuPrefix == input.sku) = false)
    (hvals : ∀ o ∈ input.options, o.values ≠ [])
    (hne : input.options ≠ []) :
    (((commitCatalog noFail input st).2).db.products.drop st.db.products.length).map
        (fun p => p.sku) =
      (allCombos (input.options.map (·.values))).map
        (fun c => input.sku ++ "_" ++ String.intercalate "_" (c.map goToLower)) ∧
    (((commitCatalog noFail input st).2).db.products.drop st.db.products.length).map
        (fun p => p.optionSummary) =
      (allCombos (input.options.map (·.values))).map
        (fun c => String.intercalate ", "
          (List.zipWith
            (fun (o : ProductOptionCreationInput) (v : String) => o.name ++ ": " ++ v)
            input.options c)) := by
  obtain ⟨ps, _, h2, _, _, _, hsku', hsum'⟩ :=
    commitCatalog_noFail_cons input st hsku hfresh hvals hne
  rw [h2, List.drop_left]
  exact ⟨hsku', hsum'⟩

/-- Witness for C3 at the §8 shirt example. -/
theorem commitCatalog_variant_sku_and_summary_witness :
    restrictedStringIsValid demoInput.sku = true ∧
    (∀ o ∈ demoInput.options, o.values ≠ []) ∧
    demoInput.options ≠ [] ∧
    ((((commitCatalog noFail demoInput freshState).2).db.products.drop
          freshState.db.products.length).map (fun p => p.sku) =
        (allCombos (demoInput.options.map (·.values))).map
          (fun c => demoInput.sku ++ "_" ++ String.intercalate "_" (c.map goToLower)) ∧
      (((commitCatalog noFail demoInput freshState).2).db.products.drop
          freshState.db.products.length).map (fun p => p.optionSummary) =
        (allCombos (demoInput.options.map (·.values))).map
          (fun c => String.intercalate ", "
            (List.zipWith
              (fun (o : ProductOptionCreationInput) (v : String) => o.name ++ ": " ++ v)
              demoInput.options c))) :=
  ⟨by decide, by decide, by decide,
    commitCatalog_variant_sku_and_summary demoInput freshState
      (by decide) (by decide) (by decide) (by decide)⟩

/-- C10: after the root is created the handler floors the base product's
quantity-per-package at 1, so every variant committed in the same run
carries `max(payload, 1) ≥ 1`, even when the payload supplies 0. -/
theorem commitCatalog_quantityPerPackage_floor (input : ProductCreationInput)
    (st : CatalogState)
    (hsku : restrictedStringIsValid input.sku = true)
    (hfresh : (st.db.roots.any fun r => r.skuPrefix == input.sku) = false)
    (hvals : ∀ o ∈ input.options, o.values ≠ []) :
    ∀ p ∈ ((commitCatalog noFail input st).2).db.products.drop st.db.products.length,
      p.quantityPerPackage = max input.quantityPerPackage 1 ∧
      1 ≤ p.quantityPerPackage := by
  by_cases hnil : input.options = []
  · obtain ⟨_, h2, _⟩ := commitCatalog_noFail_nil input st hsku hfresh hnil
    rw [h2, List.drop_left]
    intro p hp
    rw [List.mem_singleton] at hp
    subst hp
    exact ⟨rfl, le_max_right _ 1⟩
  · obtain ⟨ps, _, h2, _, _, hq, _, _⟩ :=
      commitCatalog_noFail_cons input st hsku hfresh hvals hnil
    rw [h2, List.drop_left]
    intro p hp
    refine ⟨hq p hp, ?_⟩
    rw [hq p hp]
    exact le_max_right _ 1

/-! ## Atomicity: call accounting for arbitrary failure schedules -/

theorem stCall_ok {fail : FailSchedule} {ts ts' : TxState}
    (h : stCall fail ts = .ok ts') :
    fail ts.calls = false ∧ ts' = { ts with calls := ts.calls + 1 } := by
  cases hb : fail ts.calls with
  | true => simp [stCall, hb] at h
  | false =>
      simp [stCall, hb] at h
      exact ⟨rfl, h.symm⟩

theorem clientCreateProductRoot_ok {fail : FailSchedule} {name skuPrefix : String}
    {ts : TxState} {r : Nat} {ts' : TxState}
    (h : clientCreateProductRoot fail name skuPrefix ts = .ok (r, ts')) :
    fail ts.calls = false ∧ ts'.calls = ts.calls + 1 := by
  unfold clientCreateProductRoot at h
  cases hst : stCall fail ts with
  | error e => rw [hst] at h; cases h
  | ok ts1 =>
      rw [hst] at h
      obtain ⟨hb, h1⟩ := stCall_ok hst
      cases h
      subst h1
      exact ⟨hb, rfl⟩

theorem clientCreateProductOption_ok {fail : FailSchedule} {rootID : Nat}
    {name : String} {ts : TxState} {r : Nat} {ts' : TxState}
    (h : clientCreateProductOption fail rootID name ts = .ok (r, ts')) :
    fail ts.calls = false ∧ ts'.calls = ts.calls + 1 := by
  unfold clientCreateProductOption at h
  cases hst : stCall fail ts with
  | error e => rw [hst] at h; cases h
  | ok ts1 =>
      rw [hst] at h
      obtain ⟨hb, h1⟩ := stCall_ok hst
      cases h
      subst h1
      exact ⟨hb, rfl⟩

theorem clientCreateProductOptionValue_ok {fail : FailSchedule} {optionID : Nat}
    {v : String} {ts : TxState} {r : Nat} {ts' : TxState}
    (h : clientCreateProductOptionValue fail optionID v ts = .ok (r, ts')) :
    fail ts.calls = false ∧ ts'.calls = ts.calls + 1 := by
  unfold clientCreateProductOptionValue at h
  cases hst : stCall fail ts with
  | error e => rw [hst] at h; cases h
  | ok ts1 =>
      rw [hst] at h
      obtain ⟨hb, h1⟩ := stCall_ok hst
      cases h
      subst h1
      exact ⟨hb, rfl⟩

theorem clientCreateProduct_ok {fail : FailSchedule} {p : ProductRow}
    {ts : TxState} {r : Nat} {ts' : TxState}
    (h : clientCreateProduct fail p ts = .ok (r, ts')) :
    fail ts.calls = false ∧ ts'.calls = ts.calls + 1 := by
  unfold clientCreateProduct at h
  cases hst : stCall fail ts with
  | error e => rw [hst] at h; cases h
  | ok ts1 =>
      rw [hst] at h
      obtain ⟨hb, h1⟩ := stCall_ok hst
      cases h
      subst h1
      exact ⟨hb, rfl⟩

theorem clientCreateMultipleProductVariantBridges_ok {fail : FailSchedule}
    {productID : Nat} {ids : List Nat} {ts ts' : TxState}
    (h : clientCreateMultipleProductVariantBridges fail productID ids ts = .ok ts') :
    fail ts.calls = false ∧ ts'.calls = ts.calls + 1 := by
  unfold clientCreateMultipleProductVariantBridges at h
  cases hst : stCall fail ts with
  | error e => rw [hst] at h; cases h
  | ok ts1 =>
      rw [hst] at h
      obtain ⟨hb, h1⟩ := stCall_ok hst
      cases h
      subst h1
      exact ⟨hb, rfl⟩

theorem createOptionValuesLoop_ok {fail : FailSchedule} {optionID : Nat} :
    ∀ {vals : List String} {acc : List ProductOptionValue} {ts : TxState}
      {res : List ProductOptionValue} {ts' : TxState},
      createOptionValuesLoop fail optionID vals acc ts = .ok (res, ts') →
      ts.calls ≤ ts'.calls ∧ CleanRange fail ts.calls ts'.calls := by
  intro vals
  induction vals with
  | nil =>
      intro acc ts res ts' h
      cases h
      exact ⟨Nat.le_refl _, fun k h1 h2 => absurd h2 (by omega)⟩
  | cons v rest ih =>
      intro acc ts res ts' h
      rw [createOptionValuesLoop] at h
      cases hc : clientCreateProductOptionValue fail optionID v ts with
      | error e => rw [hc] at h; cases h
      | ok pr =>
          obtain ⟨vid, ts1⟩ := pr
          rw [hc] at h
          obtain ⟨hb, hcalls⟩ := clientCreateProductOptionValue_ok hc
          obtain ⟨hle, hclean⟩ := ih h
          refine ⟨by omega, ?_⟩
          intro k h1 h2
          rcases Nat.lt_or_ge k (ts.calls + 1) with hk | hk
          · have : k = ts.calls := by omega
            subst this
            exact hb
          · exact hclean k (by omega) h2

theorem createProductOptionAndValuesInDBFromInput_ok {fail : FailSchedule}
    {i : ProductOptionCreationInput} {rootID : Nat} {ts : TxState}
    {o : ProductOption} {ts' : TxState}
    (h : createProductOptionAndValuesInDBFromInput fail i rootID ts = .ok (o, ts')) :
    ts.calls ≤ ts'.calls ∧ CleanRange fail ts.calls ts'.calls := by
  unfold createProductOptionAndValuesInDBFromInput at h
  cases hc : clientCreateProductOption fail rootID i.name ts with
  | error e => rw [hc] at h; cases h
  | ok pr =>
      obtain ⟨oid, ts1⟩ := pr
      rw [hc] at h
      simp only [] at h
      obtain ⟨hb, hcalls⟩ := clientCreateProductOption_ok hc
      cases hl : createOptionValuesLoop fail oid i.values [] ts1 with
      | error e => rw [hl] at h; cases h
      | ok pr2 =>
          obtain ⟨vals, ts2⟩ := pr2
          rw [hl] at h
          cases h
          obtain ⟨hle, hclean⟩ := createOptionValuesLoop_ok hl
          refine ⟨by omega, ?_⟩
          intro k h1 h2
          rcases Nat.lt_or_ge k (ts.calls + 1) with hk | hk
          · have : k = ts.calls := by omega
            subst this
            exact hb
          · exact hclean k (by omega) h2

theorem createOptionsLoop_ok {fail : FailSchedule} {rootID : Nat} :
    ∀ {inputs : List ProductOptionCreationInput} {acc : List ProductOption}
      {ts : TxState} {res : List ProductOption} {ts' : TxState},
      createOptionsLoop fail inputs rootID acc ts = .ok (res, ts') →
      ts.calls ≤ ts'.calls ∧ CleanRange fail ts.calls ts'.calls := by
  intro inputs
  induction inputs with
  | nil =>
      intro acc ts res ts' h
      cases h
      exact ⟨Nat.le_refl _, fun k h1 h2 => absurd h2 (by omega)⟩
  | cons i rest ih =>
      intro acc ts res ts' h
      rw [createOptionsLoop] at h
      cases hc : createProductOptionAndValuesInDBFromInput fail i rootID ts with
      | error e => rw [hc] at h; cases h
      | ok pr =>
          obtain ⟨o, ts1⟩ := pr
          rw [hc] at h
          obtain ⟨hle1, hclean1⟩ := createProductOptionAndValuesInDBFromInput_ok hc
          obtain ⟨hle2, hclean2⟩ := ih h
          refine ⟨by omega, ?_⟩
          intro k h1 h2
          rcases Nat.lt_or_ge k ts1.calls with hk | hk
          · exact hclean1 k h1 hk
          · exact hclean2 k hk h2

theorem createVariantsLoop_ok {fail : FailSchedule} {rootID : Nat}
    {skuPrefix : String} {np : ProductRow} :
    ∀ {combos : List SimpleProductOption} {acc : List ProductRow} {ts : TxState}
      {res : List ProductRow} {ts' : TxState},
      createVariantsLoop fail rootID skuPrefix np combos acc ts = .ok (res, ts') →
      ts.calls ≤ ts'.calls ∧ CleanRange fail ts.calls ts'.calls := by
  intro combos
  induction combos with
  | nil =>
      intro acc ts res ts' h
      cases h
      exact ⟨Nat.le_refl _, fun k h1 h2 => absurd h2 (by omega)⟩
  | cons s rest ih =>
      intro acc ts res ts' h
      rw [createVariantsLoop] at h
      cases hc : clientCreateProduct fail
          { np with
            productRootID := rootID
            optionSummary := s.optionSummary
            sku := skuPrefix ++ "_" ++ s.skuPostfix } ts with
      | error e => rw [hc] at h; cases h
      | ok pr =>
          obtain ⟨pid, ts1⟩ := pr
          rw [hc] at h
          simp only [] at h
          obtain ⟨hb1, hcalls1⟩ := clientCreateProduct_ok hc
          cases hbr : clientCreateMultipleProductVariantBridges fail pid s.ids ts1 with
          | error e => rw [hbr] at h; cases h
          | ok ts2 =>
              rw [hbr] at h
              obtain ⟨hb2, hcalls2⟩ := clientCreateMultipleProductVariantBridges_ok hbr
              obtain ⟨hle, hclean⟩ := ih h
              refine ⟨by omega, ?_⟩
              intro k h1 h2
              rcases Nat.lt_or_ge k ts1.calls with hk | hk
              · have : k = ts.calls := by omega
                subst this
                exact hb1
              · rcases Nat.lt_or_ge k ts2.calls with hk2 | hk2
                · have : k = ts1.calls := by omega
                  subst this
                  exact hb2
                · exact hclean k hk2 h2

theorem createProductsInDBFromOptionRows_ok {fail : FailSchedule} {r : ProductRoot}
    {np : ProductRow} {ts : TxState} {res : List ProductRow} {ts' : TxState}
    (h : createProductsInDBFromOptionRows fail r np ts = .ok (res, ts')) :
    ts.calls ≤ ts'.calls ∧ CleanRange fail ts.calls ts'.calls := by
  unfold createProductsInDBFromOptionRows at h
  cases hg : generateCartesianProductForOptions r.options with
  | none => rw [hg] at h; cases h
  | some combos =>
      rw [hg] at h
      exact createVariantsLoop_ok h

/-- Only a successful commit publishes the transaction's buffered rows:
every other outcome leaves the committed database untouched. -/
theorem commitCatalog_not_created_db (fail : FailSchedule)
    (input : ProductCreationInput) (st : CatalogState) :
    (commitCatalog fail input st).1.isCreated = true ∨
      ((commitCatalog fail input st).2).db = st.db := by
  simp only [commitCatalog]
  split
  · simp [CreationResponse.isCreated]
  split
  · simp [CreationResponse.isCreated]
  split
  · simp [CreationResponse.isCreated]
  split
  · simp [CreationResponse.isCreated]
  split
  · simp [CreationResponse.isCreated]
  split
  · simp [CreationResponse.isCreated]
  split
  · split
    · simp [CreationResponse.isCreated]
    split
    · simp [CreationResponse.isCreated]
    · simp [CreationResponse.isCreated]
  · split
    · simp [CreationResponse.isCreated]
    · simp [CreationResponse.isCreated]
    split
    · simp [CreationResponse.isCreated]
    · simp [CreationResponse.isCreated]

/-- A created response certifies that no store round trip consumed by the
run failed: the failure schedule is clean on the whole consumed range. -/
theorem commitCatalog_created_clean (fail : FailSchedule)
    (input : ProductCreationInput) (st : CatalogState)
    (h : (commitCatalog fail input st).1.isCreated = true) :
    st.calls ≤ ((commitCatalog fail input st).2).calls ∧
    CleanRange fail st.calls ((commitCatalog fail input st).2).calls := by
  revert h
  simp only [commitCatalog, createProductRootFromProduct, newProductFromCreationInput]
  split
  · intro hco; simp [CreationResponse.isCreated] at hco
  split
  · intro hco; simp [CreationResponse.isCreated] at hco
  rename_i h2
  split
  · intro hco; simp [CreationResponse.isCreated] at hco
  split
  · intro hco; simp [CreationResponse.isCreated] at hco
  rename_i h4
  split
  · intro hco; simp [CreationResponse.isCreated] at hco
  rename_i rootID ts1 heqRoot
  split
  · intro hco; simp [CreationResponse.isCreated] at hco
  rename_i os ts2 heqOpt
  split
  · split
    · intro hco; simp [CreationResponse.isCreated] at hco
    rename_i pid ts3 heqProd
    split
    · intro hco; simp [CreationResponse.isCreated] at hco
    rename_i h6
    intro _
    obtain ⟨hbRoot, hcRoot⟩ := clientCreateProductRoot_ok heqRoot
    obtain ⟨hleOpt, hclOpt⟩ := createOptionsLoop_ok heqOpt
    obtain ⟨hbProd, hcProd⟩ := clientCreateProduct_ok heqProd
    have hb2 : fail st.calls = false := by simpa using h2
    have hb4 : fail (st.calls + 1) = false := by simpa using h4
    have hb6 : fail ts3.calls = false := by simpa using h6
    have hbRoot' : fail (st.calls + 1 + 1) = false := hbRoot
    have hcRoot' : ts1.calls = st.calls + 1 + 1 + 1 := hcRoot
    constructor
    · show st.calls ≤ ts3.calls + 1
      omega
    · show CleanRange fail st.calls (ts3.calls + 1)
      intro k hk1 hk2
      by_cases e1 : k = st.calls
      · subst e1; exact hb2
      by_cases e2 : k = st.calls + 1
      · subst e2; exact hb4
      by_cases e3 : k = st.calls + 1 + 1
      · subst e3; exact hbRoot'
      by_cases e4 : k < ts2.calls
      · exact hclOpt k (by omega) e4
      by_cases e5 : k = ts2.calls
      · subst e5; exact hbProd
      have : k = ts3.calls := by
        show k = ts3.calls
        have h7 : ts3.calls = ts2.calls + 1 := hcProd
        omega
      subst this
      exact hb6
  · split
    · intro hco; simp [CreationResponse.isCreated] at hco
    · intro hco; simp [CreationResponse.isCreated] at hco
    rename_i ps ts3 heqPs
    split
    · intro hco; simp [CreationResponse.isCreated] at hco
    rename_i h6
    intro _
    obtain ⟨hbRoot, hcRoot⟩ := clientCreateProductRoot_ok heqRoot
    obtain ⟨hleOpt, hclOpt⟩ := createOptionsLoop_ok heqOpt
    obtain ⟨hlePs, hclPs⟩ := createProductsInDBFromOptionRows_ok heqPs
    have hb2 : fail st.calls = false := by simpa using h2
    have hb4 : fail (st.calls + 1) = false := by simpa using h4
    have hb6 : fail ts3.calls = false := by simpa using h6
    have hbRoot' : fail (st.calls + 1 + 1) = false := hbRoot
    have hcRoot' : ts1.calls = st.calls + 1 + 1 + 1 := hcRoot
    constructor
    · show st.calls ≤ ts3.calls + 1
      omega
    · show CleanRange fail st.calls (ts3.calls + 1)
      intro k hk1 hk2
      by_cases e1 : k = st.calls
      · subst e1; exact hb2
      by_cases e2 : k = st.calls + 1
      · subst e2; exact hb4
      by_cases e3 : k = st.calls + 1 + 1
      · subst e3; exact hbRoot'
      by_cases e4 : k < ts2.calls
      · exact hclOpt k (by omega) e4
      by_cases e5 : k < ts3.calls
      · exact hclPs k (by omega) e5
      have : k = ts3.calls := by omega
      subst this
      exact hb6

/-- C2: `CommitCatalog` is atomic.  For every payload, failure schedule and
starting state, a non-created outcome leaves the committed database
exactly as it was (rollback: no partial root/option/value/variant/bridge
rows are visible), and a created outcome certifies that no store call
consumed by the run — root, option, value, variant or bridge creation,
begin or commit — failed; contrapositively, a failure injected at any
consumed call makes the whole operation fail as a unit. -/
theorem commitCatalog_atomic (fail : FailSchedule) (input : ProductCreationInput)
    (st : CatalogState) :
    ((commitCatalog fail input st).1.isCreated = false →
      ((commitCatalog fail input st).2).db = st.db) ∧
    ((commitCatalog fail input st).1.isCreated = true →
      st.calls ≤ ((commitCatalog fail input st).2).calls ∧
      CleanRange fail st.calls ((commitCatalog fail input st).2).calls) := by
  constructor
  · intro h
    rcases commitCatalog_not_created_db fail input st with hcr | hdb
    · rw [h] at hcr; cases hcr
    · exact hdb
  · exact commitCatalog_created_clean fail input st

/-- Witness for C2: a schedule failing the commit round trip of a
zero-option run yields a non-created outcome and an unchanged database. -/
theorem commitCatalog_atomic_witness :
    (commitCatalog failCommitSchedule demoNoOptions freshState).1.isCreated = false ∧
    ((commitCatalog failCommitSchedule demoNoOptions freshState).2).db = freshState.db :=
  ⟨by decide,
    (commitCatalog_atomic failCommitSchedule demoNoOptions freshState).1 (by decide)⟩

/-- Witness for C10: the shirt payload supplies quantity-per-package 0 and
every committed variant carries 1. -/
theorem commitCatalog_quantityPerPackage_floor_witness :
    restrictedStringIsValid demoInput.sku = true ∧
    demoInput.quantityPerPackage = 0 ∧
    (∀ p ∈ ((commitCatalog noFail demoInput freshState).2).db.products.drop
        freshState.db.products.length,
      p.quantityPerPackage = max demoInput.quantityPerPackage 1 ∧
      1 ≤ p.quantityPerPackage) :=
  ⟨by decide, by decide,
    commitCatalog_quantityPerPackage_floor demoInput freshState
      (by decide) (by decide) (by decide)⟩

/-! ## Claim theorems on the Enumerator, the error taxonomy and archival -/

/-- C4: on every nonempty option list in which each option has at least
one value, the Enumerator terminates and returns exactly the combinations
of `allCombos` — one value per option, first option cycling slowest and
last option cycling fastest (odometer order) — each packaged by
`rowToSimpleOption`; and `allCombos` contains precisely the rows that
select one element from each option's placeholder list. -/
theorem generateCartesianProduct_odometer (opts : List ProductOption)
    (hne : opts ≠ []) (hv : ∀ o ∈ opts, o.values ≠ []) :
    generateCartesianProductForOptions opts =
      some ((allCombos (buildOptionData opts)).map rowToSimpleOption) ∧
    ∀ row : List OptionPlaceholder,
      row ∈ allCombos (buildOptionData opts) ↔
        List.Forall₂ (fun ph d => ph ∈ d) row (buildOptionData opts) :=
  ⟨generateCartesian_eq_allCombos opts hne hv, fun _ => mem_allCombos⟩

/-- Witness for C4 at the §8 Size/Color example. -/
theorem generateCartesianProduct_odometer_witness :
    demoOptionList ≠ [] ∧ (∀ o ∈ demoOptionList, o.values ≠ []) ∧
    generateCartesianProductForOptions demoOptionList =
      some ((allCombos (buildOptionData demoOptionList)).map rowToSimpleOption) :=
  ⟨by decide, by decide,
    (generateCartesianProduct_odometer demoOptionList (by decide) (by decide)).1⟩

/-- C5 counterexample: on the empty option list the Enumerator does not
compute the empty combination sequence. -/
theorem generateCartesianProduct_empty_not_total :
    ¬ generateCartesianProductForOptions [] = some [] := by decide

/-- C5 amended: on the empty option list the loop condition reads `ix[0]`
on the empty index slice, a Go runtime panic (modelled as `none`); the
function never returns an empty sequence there.  (The Commit Orchestrator
never reaches this: it branches on `len(productInput.Options) == 0`
before expansion.) -/
theorem generateCartesianProduct_empty_panics :
    generateCartesianProductForOptions [] = none := rfl

/-- C6 (code-bug evidence): a payload whose only option has zero values is
not rejected by validation — the handler opens a transaction, commits the
root and the empty option, and reports a created root with zero variants;
with the zero-value option in second position the Enumerator's inner
indexing panics instead of reporting a validation error. -/
theorem commitCatalog_zero_values_not_rejected :
    (commitCatalog noFail demoZeroValues freshState).1.isCreated = true ∧
    ((commitCatalog noFail demoZeroValues freshState).2).db.roots.length = 1 ∧
    ((commitCatalog noFail demoZeroValues freshState).2).db.options.length = 1 ∧
    ((commitCatalog noFail demoZeroValues freshState).2).db.products = [] ∧
    (commitCatalog noFail demoZeroValuesSecond freshState).1 =
      CreationResponse.panicked := by decide

/-- C7 (code-bug evidence): `DeleteProductVariantBridge` re-stamps an
already-archived bridge row — its UPDATE carries no `archived_on IS NULL`
guard — while the by-product-id deletion, whose query has the guard,
leaves the archived row unchanged. -/
theorem deleteProductVariantBridge_restamps_archived :
    runProductVariantBridgeDeletion 9 1 archivedBridgeTable =
      [{ id := 1, productID := 2, productOptionValueID := 3, archivedOn := some 9 }] ∧
    runProductVariantBridgeDeletion 9 1 archivedBridgeTable ≠ archivedBridgeTable ∧
    runProductVariantBridgeDeletionByProductID 9 2 archivedBridgeTable =
      archivedBridgeTable := by decide

/-- C8 counterexample: with a schedule that fails exactly the commit round
trip (the stand-in for a uniqueness violation surfacing at commit time),
the handler reports `notifyOfInternalIssue` — an internal storage error —
and not the invalid-request/conflict response. -/
theorem commitFailure_reported_as_internal :
    (commitCatalog failCommitSchedule demoNoOptions freshState).1 =
      CreationResponse.internalError ∧
    (commitCatalog failCommitSchedule demoNoOptions freshState).1 ≠
      CreationResponse.invalidInput := by decide

/-- C8 amended: the handler maps no commit-time error to the conflict
path.  A conflict/invalid response can only be produced before the
transaction opens (at most one store call is consumed), and any
commit-time error is reported as an internal error with the committed
database unchanged. -/
theorem commitCatalog_conflict_only_before_tx (fail : FailSchedule)
    (input : ProductCreationInput) (st : CatalogState) :
    ((commitCatalog fail input st).1 = CreationResponse.invalidInput →
      ((commitCatalog fail input st).2).calls ≤ st.calls + 1 ∧
      ((commitCatalog fail input st).2).db = st.db) ∧
    ((commitCatalog fail input st).1 = CreationResponse.internalError →
      ((commitCatalog fail input st).2).db = st.db) := by
  constructor
  · simp only [commitCatalog]
    split
    · intro _
      refine ⟨?_, rfl⟩
      show st.calls ≤ st.calls + 1
      omega
    split
    · intro _
      refine ⟨?_, rfl⟩
      show st.calls + 1 ≤ st.calls + 1
      omega
    split
    · intro _
      refine ⟨?_, rfl⟩
      show st.calls + 1 ≤ st.calls + 1
      omega
    split
    · intro h; simp at h
    split
    · intro h; simp at h
    split
    · intro h; simp at h
    split
    · split
      · intro h; simp at h
      split
      · intro h; simp at h
      · intro h; simp at h
    · split
      · intro h; simp at h
      · intro h; simp at h
      split
      · intro h; simp at h
      · intro h; simp at h
  · intro h
    rcases commitCatalog_not_created_db fail input st with hcr | hdb
    · rw [h] at hcr; simp [CreationResponse.isCreated] at hcr
    · exact hdb

/-- Witness for the C8 amended claim: a failed commit yields an internal
error and an unchanged committed database. -/
theorem commitCatalog_conflict_only_before_tx_witness :
    (commitCatalog failCommitSchedule demoNoOptions freshState).1 =
      CreationResponse.internalError ∧
    ((commitCatalog failCommitSchedule demoNoOptions freshState).2).db =
      freshState.db :=
  ⟨by decide,
    (commitCatalog_conflict_only_before_tx failCommitSchedule demoNoOptions
      freshState).2 (by decide)⟩

/-- C9: for every single-variant archive request, schedule and database,
whenever the variant-archive statement runs, the bridge-archive statement
ran strictly before it, inside the transaction opened before both, with no
intervening commit; and a successful run produces exactly the trace
get → begin → bridges → product → commit. -/
theorem productDeletion_bridges_before_variant (fail : FailSchedule) (now : Nat)
    (sku : String) (st : DeletionState) (htr : st.trace = []) :
    BridgesBeforeProduct ((productDeletionHandler fail now sku st).2).trace ∧
    ((productDeletionHandler fail now sku st).1 = DeletionResponse.deleted now →
      ((productDeletionHandler fail now sku st).2).trace =
        [ArchiveEv.evGet, ArchiveEv.evBegin, ArchiveEv.evBridges,
         ArchiveEv.evProduct, ArchiveEv.evCommit]) := by
  simp only [productDeletionHandler]
  split
  · refine ⟨?_, ?_⟩
    · rw [htr]
      show BridgesBeforeProduct [ArchiveEv.evGet]
      unfold BridgesBeforeProduct
      decide
    · intro h; simp at h
  split
  · refine ⟨?_, ?_⟩
    · rw [htr]
      show BridgesBeforeProduct [ArchiveEv.evGet]
      unfold BridgesBeforeProduct
      decide
    · intro h; simp at h
  split
  · refine ⟨?_, ?_⟩
    · rw [htr]
      show BridgesBeforeProduct [ArchiveEv.evGet]
      unfold BridgesBeforeProduct
      decide
    · intro h; simp at h
  split
  · refine ⟨?_, ?_⟩
    · rw [htr]
      show BridgesBeforeProduct
        [ArchiveEv.evGet, ArchiveEv.evBegin, ArchiveEv.evRollback]
      unfold BridgesBeforeProduct
      decide
    · intro h; simp at h
  split
  · refine ⟨?_, ?_⟩
    · rw [htr]
      show BridgesBeforeProduct
        [ArchiveEv.evGet, ArchiveEv.evBegin, ArchiveEv.evBridges,
         ArchiveEv.evRollback]
      unfold BridgesBeforeProduct
      decide
    · intro h; simp at h
  split
  · refine ⟨?_, ?_⟩
    · rw [htr]
      show BridgesBeforeProduct
        [ArchiveEv.evGet, ArchiveEv.evBegin, ArchiveEv.evBridges,
         ArchiveEv.evProduct]
      unfold BridgesBeforeProduct
      decide
    · intro h; simp at h
  · refine ⟨?_, fun _ => ?_⟩
    · rw [htr]
      show BridgesBeforeProduct
        [ArchiveEv.evGet, ArchiveEv.evBegin, ArchiveEv.evBridges,
         ArchiveEv.evProduct, ArchiveEv.evCommit]
      unfold BridgesBeforeProduct
      decide
    · rw [htr]
      rfl

/-- Witness for C9 at a concrete live product and the all-success
schedule. -/
theorem productDeletion_bridges_before_variant_witness :
    demoDeletionState.trace = [] ∧
    BridgesBeforeProduct
      ((productDeletionHandler noFail 9 "mug" demoDeletionState).2).trace ∧
    ((productDeletionHandler noFail 9 "mug" demoDeletionState).2).trace =
      [ArchiveEv.evGet, ArchiveEv.evBegin, ArchiveEv.evBridges,
       ArchiveEv.evProduct, ArchiveEv.evCommit] :=
  ⟨rfl,
    (productDeletion_bridges_before_variant noFail 9 "mug" demoDeletionState rfl).1,
    (productDeletion_bridges_before_variant noFail 9 "mug" demoDeletionState rfl).2
      (by decide)⟩

end Dairycart
